import Mathlib

set_option maxRecDepth 10000

/-!
Verification of the Airtable multi-table form synchronisation scripts
(compression_script.py, decompression_script.py, llm_evaluation.py).

The development shallowly embeds the data model and the operations of the
scripts: the canonical JSON document assembled by
AirtableCompressor.compress_applicant_data, the native rows written by
AirtableDecompressor, the table store state the scripts read and write,
the md5-based change detection of LLMEvaluator, and the response parser
of LLMEvaluator._parse_llm_response.

Conventions:
  - Airtable field values that the code reads with dict.get(key, default)
    may be absent from a fetched record, so native row fields are Option
    types and the defaults of the source are applied with Option.getD.
  - The canonical JSON document always carries every key (the compressor
    writes all of them), so its sections are total structures.
  - Numbers that the code never does arithmetic on (rates, availability)
    are embedded as Int.
-/

/-! ## Canonical JSON document (compression_script.py lines 67-94) -/

/-- Canonical `personal` section: keys name, email, location, linkedin. -/
structure PersonalSection where
  name : String
  email : String
  location : String
  linkedin : String
deriving DecidableEq

/-- Canonical `experience` entry: keys company, title, start, end,
technologies, current.  The JSON key `end` is a Lean keyword, so the
field is called endDate here. -/
structure ExperienceEntry where
  company : String
  title : String
  start : String
  endDate : String
  technologies : List String
  current : Bool
deriving DecidableEq

/-- Canonical `salary` section: keys preferred_rate, minimum_rate,
currency, availability. -/
structure SalarySection where
  preferred_rate : Int
  minimum_rate : Int
  currency : String
  availability : Int
deriving DecidableEq

/-- Canonical `metadata` section: keys compressed_at, version. -/
structure MetadataSection where
  compressed_at : String
  version : String
deriving DecidableEq

/-- The canonical JSON document stored in the Compressed JSON field. -/
structure CanonicalDoc where
  personal : PersonalSection
  experience : List ExperienceEntry
  salary : SalarySection
  metadata : MetadataSection
deriving DecidableEq

/-! ## Native table rows

Fields of a fetched Airtable record may be absent (Airtable omits empty
fields), hence Option.  The Applicant link field is a list of record ids. -/

/-- Fields of a Personal Details row. -/
structure PersonalRow where
  fullName : Option String
  email : Option String
  location : Option String
  linkedin : Option String
  applicant : List String
deriving DecidableEq

/-- Fields of a Work Experience row. -/
structure ExperienceRow where
  company : Option String
  title : Option String
  startDate : Option String
  endDate : Option String
  technologies : Option (List String)
  currentPosition : Option Bool
  applicant : List String
deriving DecidableEq

/-- Fields of a Salary Preferences row. -/
structure SalaryRow where
  preferredRate : Option Int
  minimumRate : Option Int
  currency : Option String
  availability : Option Int
  applicant : List String
deriving DecidableEq

/-! ## Field mappings

toCanonical is the Compressor direction (compression_script.py lines
67-94, the dict comprehension inside compress_applicant_data); toNative
is the Decompressor direction (decompression_script.py, the update_data
and create_data dicts of the three update helpers). -/

/-- Compressor mapping of a Personal Details row into the canonical
personal section (compression_script.py lines 68-73). -/
def personalToCanonical (fields : PersonalRow) : PersonalSection :=
  { name := fields.fullName.getD ""
    email := fields.email.getD ""
    location := fields.location.getD ""
    linkedin := fields.linkedin.getD "" }

/-- Compressor mapping of a Work Experience row into a canonical
experience entry (compression_script.py lines 74-83). -/
def experienceToCanonical (exp : ExperienceRow) : ExperienceEntry :=
  { company := exp.company.getD ""
    title := exp.title.getD ""
    start := exp.startDate.getD ""
    endDate := exp.endDate.getD ""
    technologies := exp.technologies.getD []
    current := exp.currentPosition.getD false }

/-- Compressor mapping of a Salary Preferences row into the canonical
salary section (compression_script.py lines 84-89). -/
def salaryToCanonical (fields : SalaryRow) : SalarySection :=
  { preferred_rate := fields.preferredRate.getD 0
    minimum_rate := fields.minimumRate.getD 0
    currency := fields.currency.getD "USD"
    availability := fields.availability.getD 0 }

/-- Decompressor mapping of the canonical personal section onto a
Personal Details row (decompression_script.py lines 88-94). -/
def personalToNative (applicant_id : String) (personal_data : PersonalSection) :
    PersonalRow :=
  { fullName := some personal_data.name
    email := some personal_data.email
    location := some personal_data.location
    linkedin := some personal_data.linkedin
    applicant := [applicant_id] }

/-- Decompressor mapping of a canonical experience entry onto a Work
Experience row (decompression_script.py lines 120-128).  The native End
Date is exp.end only when the entry is not current, else the empty
string. -/
def experienceToNative (applicant_id : String) (exp : ExperienceEntry) :
    ExperienceRow :=
  { company := some exp.company
    title := some exp.title
    startDate := some exp.start
    endDate := some (if exp.current then "" else exp.endDate)
    technologies := some exp.technologies
    currentPosition := some exp.current
    applicant := [applicant_id] }

/-- Decompressor mapping of the canonical salary section onto a Salary
Preferences row (decompression_script.py lines 144-150). -/
def salaryToNative (applicant_id : String) (salary_data : SalarySection) :
    SalaryRow :=
  { preferredRate := some salary_data.preferred_rate
    minimumRate := some salary_data.minimum_rate
    currency := some salary_data.currency
    availability := some salary_data.availability
    applicant := [applicant_id] }

/-- Auxiliary: element-wise round trip for a non-current experience
entry. -/
theorem experience_roundtrip_of_not_current (aid : String) (e : ExperienceEntry)
    (h : e.current = false) :
    experienceToCanonical (experienceToNative aid e) = e := by
  obtain ⟨c, t, s, en, te, cu⟩ := e
  cases h
  rfl

/-- Auxiliary: list-wise round trip when every entry is non-current. -/
theorem experience_list_roundtrip (aid : String) :
    ∀ l : List ExperienceEntry, (∀ e ∈ l, e.current = false) →
      (l.map (experienceToNative aid)).map experienceToCanonical = l := by
  intro l
  induction l with
  | nil => intro _; rfl
  | cons e t ih =>
      intro h
      have he : e.current = false := h e (by simp)
      have ht : ∀ x ∈ t, x.current = false := fun x hx => h x (by simp [hx])
      simp only [List.map_cons, experience_roundtrip_of_not_current aid e he,
        ih ht]

/-- C1: for every canonical document whose experience entries all have
current = false, writing it to the normalized tables with the
Decompressor field mapping and re-reading those rows with the Compressor
field mapping yields the same personal section, the same experience list
in the same order, and the same salary section. -/
theorem roundtrip_toCanonical_toNative (aid : String) (D : CanonicalDoc)
    (hcur : ∀ e ∈ D.experience, e.current = false) :
    personalToCanonical (personalToNative aid D.personal) = D.personal ∧
    (D.experience.map (experienceToNative aid)).map experienceToCanonical
      = D.experience ∧
    salaryToCanonical (salaryToNative aid D.salary) = D.salary :=
  ⟨rfl, experience_list_roundtrip aid D.experience hcur, rfl⟩

/-- Concrete two-entry document used by witnesses. -/
def sampleDoc : CanonicalDoc :=
  { personal := { name := "A", email := "a@x.com", location := "US",
                  linkedin := "" }
    experience :=
      [{ company := "Acme", title := "Dev", start := "2020-01-01",
         endDate := "2021-01-01", technologies := ["python"],
         current := false },
       { company := "Beta", title := "Eng", start := "2021-02-01",
         endDate := "2022-01-01", technologies := [],
         current := false }]
    salary := { preferred_rate := 50, minimum_rate := 40,
                currency := "USD", availability := 20 }
    metadata := { compressed_at := "t0", version := "1.0" } }

/-- Witness for C1 at a concrete two-entry document. -/
theorem roundtrip_toCanonical_toNative_witness :
    (∀ e ∈ sampleDoc.experience, e.current = false) ∧
    (sampleDoc.experience.map (experienceToNative "rec1")).map
        experienceToCanonical
      = sampleDoc.experience :=
  ⟨by decide, (roundtrip_toCanonical_toNative "rec1" sampleDoc (by decide)).2.1⟩

/-- C4: for an experience entry with current = true and a non-empty end
value, decompression writes the native End Date as the empty string and
Current Position as true, and re-compressing that row reads back the
entry with end = "". -/
theorem current_entry_one_way_normalization (aid : String) (e : ExperienceEntry)
    (hcur : e.current = true) (hend : e.endDate ≠ "") :
    (experienceToNative aid e).endDate = some "" ∧
    (experienceToNative aid e).currentPosition = some true ∧
    experienceToCanonical (experienceToNative aid e) = { e with endDate := "" } := by
  refine ⟨by simp [experienceToNative, hcur], by simp [experienceToNative, hcur], ?_⟩
  simp [experienceToCanonical, experienceToNative, hcur]

/-- Concrete current-position entry with a non-empty end value. -/
def sampleCurrentEntry : ExperienceEntry :=
  { company := "Acme", title := "Dev", start := "2020-01-01",
    endDate := "2021-01-01", technologies := [], current := true }

/-- Witness for C4 at a concrete current entry with a non-empty end. -/
theorem current_entry_one_way_normalization_witness :
    sampleCurrentEntry.current = true ∧
    sampleCurrentEntry.endDate ≠ "" ∧
    (experienceToNative "rec1" sampleCurrentEntry).endDate = some "" :=
  ⟨by decide, by decide,
    (current_entry_one_way_normalization "rec1" sampleCurrentEntry
      (by decide) (by decide)).1⟩

/-! ## Python string primitives

The scripts use Python str methods (strip, startswith, replace, split,
lower, int conversion).  They are embedded here as total functions on
the character list of a String so that every definition reduces inside
the kernel.  Whitespace is the ASCII whitespace recognised by
Char.isWhitespace, which covers every character the scripts actually
produce. -/

/-- Python str.strip on a character list. -/
def stripList (l : List Char) : List Char :=
  ((l.dropWhile Char.isWhitespace).reverse.dropWhile Char.isWhitespace).reverse

/-- Python str.strip. -/
def pyStrip (s : String) : String := ⟨stripList s.data⟩

/-- Does the character list s start with the character list pre. -/
def listStartsWith : List Char → List Char → Bool
  | [], _ => true
  | _ :: _, [] => false
  | p :: ps, c :: cs => p = c && listStartsWith ps cs

/-- Python str.startswith. -/
def pyStartsWith (s pre : String) : Bool := listStartsWith pre.data s.data

/-- Replace every non-overlapping occurrence of pat (non-empty in all
uses below) by rep, scanning left to right, with an explicit fuel that
starts at the length of the input. -/
def replaceFuel (pat rep : List Char) : Nat → List Char → List Char
  | _, [] => []
  | 0, l => l
  | Nat.succ k, c :: cs =>
      if !pat.isEmpty && listStartsWith pat (c :: cs) then
        rep ++ replaceFuel pat rep k ((c :: cs).drop pat.length)
      else
        c :: replaceFuel pat rep k cs

/-- Python str.replace (for the non-empty patterns the scripts use). -/
def pyReplace (s pat rep : String) : String :=
  ⟨replaceFuel pat.data rep.data s.data.length s.data⟩

/-- Split a character list at every occurrence of sep, Python
str.split(sep) style: no collapsing, an empty input gives one empty
piece. -/
def splitCharList (sep : Char) : List Char → List (List Char)
  | [] => [[]]
  | c :: cs =>
      match splitCharList sep cs with
      | [] => [[c]]
      | h :: t => if c = sep then [] :: h :: t else (c :: h) :: t

/-- Python str.split with a one-character separator. -/
def pySplitChar (s : String) (sep : Char) : List String :=
  (splitCharList sep s.data).map fun l => ⟨l⟩

/-- Split at whitespace and discard empty pieces: Python str.split()
with no argument. -/
def pyWords (s : String) : List String :=
  (((s.data.map fun c => if c.isWhitespace then '\n' else c) |>
      splitCharList '\n').filter (· ≠ [])).map fun l => ⟨l⟩

/-- Python str.lower (on the ASCII letters the scripts compare). -/
def pyLower (s : String) : String := ⟨s.data.map Char.toLower⟩

/-- Numeric value of a decimal digit list. -/
def digitsToNat (l : List Char) : Nat :=
  l.foldl (fun a c => a * 10 + (c.toNat - 48)) 0

/-- Python int(text) for a stripped argument: an optional sign followed
by one or more ASCII digits, anything else raising ValueError (none). -/
def pyInt? (s : String) : Option Int :=
  let core : List Char → Option Nat := fun l =>
    if !l.isEmpty && l.all Char.isDigit then some (digitsToNat l) else none
  match s.data with
  | '+' :: rest => (core rest).map Int.ofNat
  | '-' :: rest => (core rest).map fun n => -(n : Int)
  | l => (core l).map Int.ofNat

/-! ## LLM response parser (llm_evaluation.py lines 231-297) -/

/-- The structured result of LLMEvaluator._parse_llm_response. -/
structure EvalResult where
  summary : String
  score : Int
  issues : List String
  follow_ups : List String
deriving DecidableEq

/-- Initial parse state (llm_evaluation.py lines 235-240): empty
summary, score 5, no issues, no follow-ups, current_section = None. -/
def parseInit : EvalResult :=
  { summary := "", score := 5, issues := [], follow_ups := [] }

/-- Score assigned by a Score: line (llm_evaluation.py lines 252-258):
int(score_text) clamped to the default 5 outside 1..10 or on
ValueError. -/
def scoreOfLine (line : String) : Int :=
  match pyInt? (pyStrip (pyReplace line "Score:" "")) with
  | some n => if n < 1 || n > 10 then 5 else n
  | none => 5

/-- One iteration of the line loop of _parse_llm_response
(llm_evaluation.py lines 244-277).  The state is the result being built
plus the current_section marker. -/
def parseStep (st : EvalResult × Option String) (rawLine : String) :
    EvalResult × Option String :=
  let line := pyStrip rawLine
  let result := st.1
  if pyStartsWith line "Summary:" then
    ({ result with summary := pyStrip (pyReplace line "Summary:" "") },
      some "summary")
  else if pyStartsWith line "Score:" then
    ({ result with score := scoreOfLine line }, some "score")
  else if pyStartsWith line "Issues:" then
    let issues_text := pyStrip (pyReplace line "Issues:" "")
    let issues :=
      if pyLower issues_text ∈ (["none", "n/a", ""] : List String) then
        result.issues
      else
        (pySplitChar issues_text ',').map pyStrip
    ({ result with issues := issues }, some "issues")
  else if pyStartsWith line "Follow-Ups:" then
    (result, some "follow_ups")
  else if pyStartsWith line "•" && st.2 == some "follow_ups" then
    let question := pyStrip (pyReplace line "•" "")
    (if question ≠ "" then
        { result with follow_ups := result.follow_ups ++ [question] }
      else result, st.2)
  else if st.2 == some "summary" && line ≠ "" &&
      !(pyStartsWith line "Score:" || pyStartsWith line "Issues:" ||
        pyStartsWith line "Follow-Ups:") then
    ({ result with summary := result.summary ++ " " ++ line }, st.2)
  else
    (result, st.2)

/-- Join a list of strings with single spaces: the join in the summary
trimming step. -/
def joinSpace : List String → String
  | [] => ""
  | [s] => s
  | s :: rest => s ++ " " ++ joinSpace rest

/-- LLMEvaluator._parse_llm_response: line loop followed by summary
trimming (more than 90 words cut to 75 plus an ellipsis) and the cap of
follow-ups at three. -/
def parse_llm_response (response_text : String) : EvalResult :=
  let lines := pySplitChar (pyStrip response_text) '\n'
  let st := lines.foldl parseStep (parseInit, none)
  let result := st.1
  let summary_words := pyWords result.summary
  let result :=
    if summary_words.length > 90 then
      { result with summary := joinSpace (summary_words.take 75) ++ "..." }
    else result
  { result with follow_ups := result.follow_ups.take 3 }

/-- The fixed dictionary returned by the exception fallback of
_parse_llm_response (llm_evaluation.py lines 292-297). -/
def parseFallbackResult : EvalResult :=
  { summary := "Error parsing LLM response", score := 5,
    issues := ["LLM evaluation failed"],
    follow_ups := ["Please review application manually"] }

/-- The score a Score: line assigns always lies in 1..10. -/
theorem scoreOfLine_range (line : String) :
    1 ≤ scoreOfLine line ∧ scoreOfLine line ≤ 10 := by
  unfold scoreOfLine
  rcases pyInt? (pyStrip (pyReplace line "Score:" "")) with _ | n
  · exact ⟨by norm_num, by norm_num⟩
  · dsimp only
    split_ifs with hr
    · exact ⟨by norm_num, by norm_num⟩
    · rw [Bool.or_eq_true, not_or] at hr
      simp only [decide_eq_true_eq, not_lt] at hr
      omega

/-- A parse step keeps the score inside 1..10. -/
theorem parseStep_score_range (st : EvalResult × Option String) (line : String)
    (h1 : 1 ≤ st.1.score) (h2 : st.1.score ≤ 10) :
    1 ≤ (parseStep st line).1.score ∧ (parseStep st line).1.score ≤ 10 := by
  unfold parseStep
  dsimp only
  split_ifs <;> first
    | exact ⟨h1, h2⟩
    | exact scoreOfLine_range (pyStrip line)

/-- A parse step leaves the score unchanged when the stripped line does
not start with Score:. -/
theorem parseStep_score_of_not_score_line (st : EvalResult × Option String)
    (line : String) (h : pyStartsWith (pyStrip line) "Score:" = false) :
    (parseStep st line).1.score = st.1.score := by
  unfold parseStep
  dsimp only
  split_ifs <;> simp_all

/-- Folding the line loop keeps the score inside 1..10. -/
theorem foldl_parseStep_score_range :
    ∀ (lines : List String) (st : EvalResult × Option String),
      1 ≤ st.1.score → st.1.score ≤ 10 →
      1 ≤ (lines.foldl parseStep st).1.score ∧
        (lines.foldl parseStep st).1.score ≤ 10 := by
  intro lines
  induction lines with
  | nil => intro st h1 h2; exact ⟨h1, h2⟩
  | cons l t ih =>
      intro st h1 h2
      have := parseStep_score_range st l h1 h2
      exact ih (parseStep st l) this.1 this.2

/-- Folding the line loop never moves the score when no line is a score
line. -/
theorem foldl_parseStep_score_const :
    ∀ (lines : List String) (st : EvalResult × Option String),
      (∀ l ∈ lines, pyStartsWith (pyStrip l) "Score:" = false) →
      (lines.foldl parseStep st).1.score = st.1.score := by
  intro lines
  induction lines with
  | nil => intro st _; rfl
  | cons l t ih =>
      intro st h
      rw [List.foldl_cons, ih (parseStep st l) fun x hx => h x (by simp [hx]),
        parseStep_score_of_not_score_line st l (h l (by simp))]

/-- A string starting with Score: does not start with Summary:. -/
theorem startsWith_score_not_summary (s : String)
    (h : pyStartsWith s "Score:" = true) :
    pyStartsWith s "Summary:" = false := by
  unfold pyStartsWith at h ⊢
  rcases s with ⟨l⟩
  rcases l with _ | ⟨c1, _ | ⟨c2, rest⟩⟩
  · simp [listStartsWith] at h
  · simp [listStartsWith] at h
  · simp only [listStartsWith, Bool.and_eq_true, decide_eq_true_eq] at h
    obtain ⟨h1, h2, _⟩ := h
    subst h1
    subst h2
    simp [listStartsWith]

/-- A Score: line whose text fails to parse as an integer or parses
outside 1..10 assigns the default score 5. -/
theorem scoreOfLine_default (line : String)
    (hbad : pyInt? (pyStrip (pyReplace line "Score:" "")) = none ∨
      ∀ n, pyInt? (pyStrip (pyReplace line "Score:" "")) = some n →
        n < 1 ∨ 10 < n) :
    scoreOfLine line = 5 := by
  unfold scoreOfLine
  rcases hp : pyInt? (pyStrip (pyReplace line "Score:" "")) with _ | n
  · rfl
  · rcases hbad with hb | hb
    · rw [hp] at hb; cases hb
    · have := hb n hp
      dsimp only
      rw [if_pos]
      simp only [Bool.or_eq_true, decide_eq_true_eq]
      omega

/-- C10: every parsed evaluation carries a score between 1 and 10; when
no stripped line of the response starts with Score: the score is the
default 5; a score line whose text does not parse as an integer, or
parses outside 1..10, sets the score to 5; and the exception fallback
result also carries score 5. -/
theorem parse_llm_response_score_invariant (text : String) :
    (1 ≤ (parse_llm_response text).score ∧
      (parse_llm_response text).score ≤ 10) ∧
    ((∀ l ∈ pySplitChar (pyStrip text) '\n',
        pyStartsWith (pyStrip l) "Score:" = false) →
      (parse_llm_response text).score = 5) ∧
    (∀ (st : EvalResult × Option String) (line : String),
      pyStartsWith (pyStrip line) "Score:" = true →
      (pyInt? (pyStrip (pyReplace (pyStrip line) "Score:" "")) = none ∨
        ∀ n, pyInt? (pyStrip (pyReplace (pyStrip line) "Score:" "")) = some n →
          n < 1 ∨ 10 < n) →
      (parseStep st line).1.score = 5) ∧
    parseFallbackResult.score = 5 := by
  refine ⟨?_, ?_, ?_, rfl⟩
  · have h := foldl_parseStep_score_range
      (pySplitChar (pyStrip text) '\n') (parseInit, none) (by decide) (by decide)
    unfold parse_llm_response
    dsimp only
    split_ifs <;> exact h
  · intro hno
    have h := foldl_parseStep_score_const
      (pySplitChar (pyStrip text) '\n') (parseInit, none) hno
    unfold parse_llm_response
    dsimp only
    split_ifs <;> exact h
  · intro st line hline hbad
    unfold parseStep
    dsimp only
    rw [if_neg (by simp [startsWith_score_not_summary _ hline]),
      if_pos (by simp [hline])]
    exact scoreOfLine_default (pyStrip line) hbad

/-- Witness for C10: a response with no score line parses to score 5,
and a Score: line with a non-numeric text assigns score 5. -/
theorem parse_llm_response_score_invariant_witness :
    (parse_llm_response "Summary: ok").score = 5 ∧
    (parseStep (parseInit, none) "Score: abc").1.score = 5 :=
  ⟨(parse_llm_response_score_invariant "Summary: ok").2.1 (by decide),
   (parse_llm_response_score_invariant "Summary: ok").2.2.1 (parseInit, none)
     "Score: abc" (by decide) (Or.inl (by decide))⟩

/-! ## Python string comparison and stable key sort

Python sorted(xs, key=k) is a stable ascending sort whose string
comparison is code-point lexicographic.  charListLt is that comparison
on character lists; insertByKey/sortByKey is a stable insertion sort,
which agrees with any stable sort by the same key. -/

/-- Code-point lexicographic strict comparison of character lists. -/
def charListLt : List Char → List Char → Bool
  | _, [] => false
  | [], _ :: _ => true
  | a :: as, b :: bs =>
      if a < b then true else if b < a then false else charListLt as bs

/-- Python string < (code-point lexicographic). -/
def pyStrLt (a b : String) : Bool := charListLt a.data b.data

theorem charListLt_asymm :
    ∀ a b : List Char, charListLt a b = true → charListLt b a = false := by
  intro a
  induction a with
  | nil =>
      intro b h
      cases b with
      | nil => simp [charListLt] at h
      | cons c cs => simp [charListLt]
  | cons a0 as ih =>
      intro b h
      cases b with
      | nil => simp [charListLt] at h
      | cons b0 bs =>
          simp only [charListLt] at h ⊢
          by_cases h1 : a0 < b0
          · simp only [h1, if_true] at h
            rw [if_neg (lt_asymm h1), if_pos h1]
          · simp only [h1, if_false] at h
            by_cases h2 : b0 < a0
            · simp [h2] at h
            · simp only [h2, if_false] at h ⊢
              rw [if_neg h1]
              exact ih bs h

theorem charListLt_antisymm_eq :
    ∀ a b : List Char, charListLt a b = false → charListLt b a = false → a = b := by
  intro a
  induction a with
  | nil =>
      intro b h1 _
      cases b with
      | nil => rfl
      | cons c cs => simp [charListLt] at h1
  | cons a0 as ih =>
      intro b h1 h2
      cases b with
      | nil => simp [charListLt] at h2
      | cons b0 bs =>
          simp only [charListLt] at h1 h2
          by_cases hab : a0 < b0
          · simp [hab] at h1
          · by_cases hba : b0 < a0
            · simp [hba] at h2
            · have he : a0 = b0 := le_antisymm (not_lt.mp hba) (not_lt.mp hab)
              rw [if_neg hab, if_neg hba] at h1
              rw [if_neg hba, if_neg hab] at h2
              rw [he, ih bs h1 h2]

theorem charListLt_trans :
    ∀ a b c : List Char, charListLt a b = true → charListLt b c = true →
      charListLt a c = true := by
  intro a
  induction a with
  | nil =>
      intro b c _ h2
      cases c with
      | nil =>
          cases b with
          | nil => simp [charListLt] at h2
          | cons b0 bs => simp [charListLt] at h2
      | cons c0 cs => simp [charListLt]
  | cons a0 as ih =>
      intro b c h1 h2
      cases b with
      | nil => simp [charListLt] at h1
      | cons b0 bs =>
          cases c with
          | nil => simp [charListLt] at h2
          | cons c0 cs =>
              simp only [charListLt] at h1 h2 ⊢
              by_cases hab : a0 < b0
              · by_cases hbc : b0 < c0
                · rw [if_pos (lt_trans hab hbc)]
                · simp only [hbc, if_false] at h2
                  by_cases hcb : c0 < b0
                  · simp [hcb] at h2
                  · have : b0 = c0 := le_antisymm (not_lt.mp hcb) (not_lt.mp hbc)
                    rw [if_pos (this ▸ hab)]
              · simp only [hab, if_false] at h1
                by_cases hba : b0 < a0
                · simp [hba] at h1
                · simp only [hba, if_false] at h1
                  have hae : a0 = b0 := le_antisymm (not_lt.mp hba) (not_lt.mp hab)
                  by_cases hbc : b0 < c0
                  · rw [if_pos (hae ▸ hbc)]
                  · simp only [hbc, if_false] at h2
                    by_cases hcb : c0 < b0
                    · simp [hcb] at h2
                    · have hbe : b0 = c0 := le_antisymm (not_lt.mp hcb) (not_lt.mp hbc)
                      rw [if_neg hcb] at h2
                      subst hae
                      subst hbe
                      rw [if_neg hab, if_neg hab]
                      exact ih bs cs h1 h2

theorem pyStrLt_asymm (a b : String) (h : pyStrLt a b = true) :
    pyStrLt b a = false :=
  charListLt_asymm a.data b.data h

theorem pyStrLt_antisymm_eq (a b : String) (h1 : pyStrLt a b = false)
    (h2 : pyStrLt b a = false) : a = b := by
  rcases a with ⟨la⟩
  rcases b with ⟨lb⟩
  exact congrArg String.mk (charListLt_antisymm_eq la lb h1 h2)

theorem pyStrLt_notlt_trans (a b c : String) (h1 : pyStrLt a b = false)
    (h2 : pyStrLt b c = false) : pyStrLt a c = false := by
  rcases hac : pyStrLt a c with _ | _
  · rfl
  · exfalso
    rcases hcb : pyStrLt c b with _ | _
    · rcases hbc : pyStrLt b c with _ | _
      · have := pyStrLt_antisymm_eq b c hbc hcb
        subst this
        rw [hac] at h1
        cases h1
      · rw [hbc] at h2
        cases h2
    · have := charListLt_trans a.data c.data b.data hac hcb
      rw [show charListLt a.data b.data = pyStrLt a b from rfl, h1] at this
      cases this

/-- Python stable insertion into a key-sorted list: keep walking while
the current element's key is strictly below the inserted key. -/
def insertByKey {α : Type} (key : α → String) (x : α) : List α → List α
  | [] => [x]
  | y :: ys =>
      if pyStrLt (key y) (key x) then y :: insertByKey key x ys
      else x :: y :: ys

/-- Stable ascending sort by a string key: the model of Python
sorted(xs, key=k).  Any two stable sorts by the same key agree, so
insertion sort is a faithful embedding of Timsort here. -/
def sortByKey {α : Type} (key : α → String) : List α → List α
  | [] => []
  | x :: xs => insertByKey key x (sortByKey key xs)

theorem insertByKey_perm {α : Type} (key : α → String) (x : α) :
    ∀ l : List α, List.Perm (insertByKey key x l) (x :: l) := by
  intro l
  induction l with
  | nil => exact List.Perm.refl _
  | cons y ys ih =>
      simp only [insertByKey]
      split_ifs
      · exact (ih.cons y).trans (List.Perm.swap x y ys)
      · exact List.Perm.refl _

theorem sortByKey_perm {α : Type} (key : α → String) :
    ∀ l : List α, List.Perm (sortByKey key l) l := by
  intro l
  induction l with
  | nil => exact List.Perm.refl _
  | cons x xs ih =>
      exact (insertByKey_perm key x (sortByKey key xs)).trans (ih.cons x)

/-- Sortedness by key: no later element has a strictly smaller key. -/
def KeySorted {α : Type} (key : α → String) (l : List α) : Prop :=
  l.Pairwise fun a b => pyStrLt (key b) (key a) = false

theorem insertByKey_keySorted {α : Type} (key : α → String) (x : α) :
    ∀ l : List α, KeySorted key l → KeySorted key (insertByKey key x l) := by
  intro l
  induction l with
  | nil => intro _; exact List.pairwise_singleton _ _
  | cons y ys ih =>
      intro h
      rcases List.pairwise_cons.mp h with ⟨hy, hys⟩
      simp only [insertByKey]
      split_ifs with hlt
      · refine List.pairwise_cons.mpr ⟨?_, ih hys⟩
        intro z hz
        have hz2 : z ∈ x :: ys := (insertByKey_perm key x ys).mem_iff.mp hz
        rcases List.mem_cons.mp hz2 with hz3 | hz3
        · subst hz3
          exact pyStrLt_asymm _ _ hlt
        · exact hy z hz3
      · refine List.pairwise_cons.mpr ⟨?_, h⟩
        intro z hz
        rcases List.mem_cons.mp hz with hz | hz
        · subst hz
          exact (Bool.not_eq_true _) ▸ hlt
        · exact pyStrLt_notlt_trans _ _ _ (hy z hz) ((Bool.not_eq_true _) ▸ hlt)

theorem sortByKey_keySorted {α : Type} (key : α → String) :
    ∀ l : List α, KeySorted key (sortByKey key l) := by
  intro l
  induction l with
  | nil => exact List.Pairwise.nil
  | cons x xs ih => exact insertByKey_keySorted key x (sortByKey key xs) ih

/-- Two key-sorted lists that are permutations of each other and whose
keys are pairwise distinct are equal. -/
theorem keySorted_nodup_eq {α : Type} (key : α → String) :
    ∀ l1 l2 : List α, List.Perm l1 l2 → KeySorted key l1 → KeySorted key l2 →
      (l1.map key).Nodup → l1 = l2 := by
  intro l1
  induction l1 with
  | nil =>
      intro l2 hp _ _ _
      exact (hp.nil_eq).symm ▸ rfl
  | cons a t1 ih =>
      intro l2 hp hs1 hs2 hn
      cases l2 with
      | nil => exact absurd hp.eq_nil (by simp)
      | cons b t2 =>
          rcases List.pairwise_cons.mp hs1 with ⟨ha1, ht1⟩
          rcases List.pairwise_cons.mp hs2 with ⟨hb2, ht2⟩
          have hab : a = b := by
            have ha2 : a ∈ b :: t2 := hp.subset (List.mem_cons_self a t1)
            rcases List.mem_cons.mp ha2 with h | h
            · exact h
            · have hb1 : b ∈ a :: t1 := hp.symm.subset (List.mem_cons_self b t2)
              rcases List.mem_cons.mp hb1 with h' | h'
              · exact h'.symm
              · have hkab : pyStrLt (key a) (key b) = false := hb2 a h
                have hkba : pyStrLt (key b) (key a) = false := ha1 b h'
                have hk : key a = key b := pyStrLt_antisymm_eq _ _ hkab hkba
                have : key a ∉ (t1.map key) := (List.nodup_cons.mp (by
                  simpa using hn)).1
                exact absurd (hk ▸ List.mem_map_of_mem key h') this
          subst hab
          have htp : List.Perm t1 t2 := hp.cons_inv
          rw [ih t2 htp ht1 ht2 (List.nodup_cons.mp (by simpa using hn)).2]

/-- Sorting commutes with mapping a function that preserves the key. -/
theorem insertByKey_map {α β : Type} (f : α → β) (keyA : α → String)
    (keyB : β → String) (hk : ∀ z, keyB (f z) = keyA z) (x : α) :
    ∀ l : List α,
      (insertByKey keyA x l).map f = insertByKey keyB (f x) (l.map f) := by
  intro l
  induction l with
  | nil => rfl
  | cons y ys ih =>
      simp only [insertByKey, List.map_cons, hk]
      split_ifs
      · simp only [List.map_cons, ih]
      · rfl

/-- sortByKey commutes with mapping a function that preserves the key. -/
theorem sortByKey_map {α β : Type} (f : α → β) (keyA : α → String)
    (keyB : β → String) (hk : ∀ z, keyB (f z) = keyA z) :
    ∀ l : List α, (sortByKey keyA l).map f = sortByKey keyB (l.map f) := by
  intro l
  induction l with
  | nil => rfl
  | cons y ys ih =>
      simp only [sortByKey, List.map_cons]
      rw [insertByKey_map f keyA keyB hk, ih]

/-! ## Airtable records and the experience integrity check -/

/-- An Airtable record: an id plus its fields mapping. -/
structure Rec (α : Type) where
  id : String
  fields : α
deriving DecidableEq

/-- Sort key of a fetched Work Experience record in
_validate_experience_data: fields.get(Company, empty). -/
def expRecKey (r : Rec ExperienceRow) : String := r.fields.company.getD ""

/-- Sort key of a document experience entry in
_validate_experience_data: entry.get(company, empty). -/
def expEntryKey (e : ExperienceEntry) : String := e.company

/-- The comparison loop of _validate_experience_data
(decompression_script.py lines 232-250): reject on a length mismatch,
sort both sides by company, then require company and title to agree
pairwise (no other field is compared). -/
def experienceRowsMatch (records : List (Rec ExperienceRow))
    (expected : List ExperienceEntry) : Bool :=
  if records.length ≠ expected.length then false
  else
    ((sortByKey expRecKey records).zip (sortByKey expEntryKey expected)).all
      fun p =>
        p.1.fields.company == some p.2.company &&
        p.1.fields.title == some p.2.title

/-- Projection of a record to the only fields the check reads. -/
def expRecProj (r : Rec ExperienceRow) : Option String × Option String :=
  (r.fields.company, r.fields.title)

/-- Projection of a document entry to the only fields the check reads. -/
def expEntryProj (e : ExperienceEntry) : String × String :=
  (e.company, e.title)

/-- Key of a projected record pair. -/
def recPairKey (p : Option String × Option String) : String := p.1.getD ""

/-- Key of a projected entry pair. -/
def entryPairKey (p : String × String) : String := p.1

/-- The experience check evaluated on the projections alone. -/
def projMatch (a : List (Option String × Option String))
    (e : List (String × String)) : Bool :=
  if a.length ≠ e.length then false
  else
    ((sortByKey recPairKey a).zip (sortByKey entryPairKey e)).all
      fun p => p.1.1 == some p.2.1 && p.1.2 == some p.2.2

/-- all over a mapped list evaluates the composite predicate. -/
theorem list_all_map_general {α β : Type} (f : α → β) (p : β → Bool) :
    ∀ l : List α, (l.map f).all p = l.all fun a => p (f a) := by
  intro l
  induction l with
  | nil => rfl
  | cons x xs ih => simp only [List.map_cons, List.all_cons, ih]

/-- The experience check factors through the company/title
projections. -/
theorem experienceRowsMatch_eq_projMatch
    (records : List (Rec ExperienceRow)) (expected : List ExperienceEntry) :
    experienceRowsMatch records expected
      = projMatch (records.map expRecProj) (expected.map expEntryProj) := by
  unfold experienceRowsMatch projMatch
  rw [List.length_map, List.length_map]
  split_ifs with h
  · rfl
  · rw [← sortByKey_map expRecProj expRecKey recPairKey (fun z => rfl),
      ← sortByKey_map expEntryProj expEntryKey entryPairKey (fun z => rfl),
      List.zip_map, list_all_map_general]
    rfl

/-- The experience check reads nothing but company and title. -/
theorem experienceRowsMatch_proj_eq
    (records records' : List (Rec ExperienceRow))
    (expected expected' : List ExperienceEntry)
    (hr : records.map expRecProj = records'.map expRecProj)
    (he : expected.map expEntryProj = expected'.map expEntryProj) :
    experienceRowsMatch records expected
      = experienceRowsMatch records' expected' := by
  rw [experienceRowsMatch_eq_projMatch, experienceRowsMatch_eq_projMatch,
    hr, he]

/-- The experience check is invariant under permuting the fetched rows
when company names are pairwise distinct. -/
theorem experienceRowsMatch_perm_eq
    (records records' : List (Rec ExperienceRow))
    (expected : List ExperienceEntry)
    (hp : List.Perm records records')
    (hn : (records.map expRecKey).Nodup) :
    experienceRowsMatch records expected
      = experienceRowsMatch records' expected := by
  have hsort : sortByKey expRecKey records = sortByKey expRecKey records' :=
    keySorted_nodup_eq expRecKey _ _
      (((sortByKey_perm expRecKey records).trans hp).trans
        (sortByKey_perm expRecKey records').symm)
      (sortByKey_keySorted expRecKey records)
      (sortByKey_keySorted expRecKey records')
      (((sortByKey_perm expRecKey records).map expRecKey).nodup_iff.mpr hn)
  unfold experienceRowsMatch
  rw [hsort, hp.length_eq]

/-! ## JSON serialisation

compress_applicant_data stores json.dumps(compressed_json, indent=2).
The document shape is fixed, so the printer is written per section with
the exact key order of the source dicts, the default item separators of
json.dumps with an indent, and ensure_ascii escaping of strings. -/

/-- Decimal digit character. -/
def decDigitChar (d : Nat) : Char := Char.ofNat (48 + d)

/-- Decimal digits of a natural number, most significant first; the
fuel argument starts at n + 1 which always suffices. -/
def natDecDigits : Nat → Nat → List Char
  | 0, _ => []
  | fuel + 1, n =>
      if n < 10 then [decDigitChar n]
      else natDecDigits fuel (n / 10) ++ [decDigitChar (n % 10)]

/-- Decimal rendering of a natural number. -/
def natDec (n : Nat) : String := ⟨natDecDigits (n + 1) n⟩

/-- Decimal rendering of an integer, as json.dumps prints int. -/
def intDec (i : Int) : String :=
  match i with
  | Int.ofNat n => natDec n
  | Int.negSucc m => "-" ++ natDec (m + 1)

/-- Lowercase hexadecimal digit character. -/
def hexDigitChar (d : Nat) : Char :=
  if d < 10 then Char.ofNat (48 + d) else Char.ofNat (87 + d)

/-- Four lowercase hex digits, as in a JSON unicode escape. -/
def hex4 (n : Nat) : List Char :=
  [hexDigitChar (n / 4096 % 16), hexDigitChar (n / 256 % 16),
   hexDigitChar (n / 16 % 16), hexDigitChar (n % 16)]

/-- JSON escape of one character under ensure_ascii: printable ASCII
other than quote and backslash stays, short escapes for the usual
control characters, unicode escapes (with surrogate pairs beyond the
basic plane) for the rest. -/
def jsonEscapeChar (c : Char) : List Char :=
  if c = '"' then ['\\', '"']
  else if c = '\\' then ['\\', '\\']
  else if c = '\n' then ['\\', 'n']
  else if c = '\r' then ['\\', 'r']
  else if c = '\t' then ['\\', 't']
  else if c.toNat = 8 then ['\\', 'b']
  else if c.toNat = 12 then ['\\', 'f']
  else if c.toNat < 32 then '\\' :: 'u' :: hex4 c.toNat
  else if c.toNat < 127 then [c]
  else if c.toNat < 65536 then '\\' :: 'u' :: hex4 c.toNat
  else
    ('\\' :: 'u' :: hex4 (55296 + (c.toNat - 65536) / 1024)) ++
    ('\\' :: 'u' :: hex4 (56320 + (c.toNat - 65536) % 1024))

/-- A JSON string literal. -/
def jsonStr (s : String) : String :=
  ⟨'"' :: s.data.foldr (fun c acc => jsonEscapeChar c ++ acc) ['"']⟩

/-- Join strings with a separator. -/
def joinWith (sep : String) : List String → String
  | [] => ""
  | [s] => s
  | s :: rest => s ++ sep ++ joinWith sep rest

/-- k spaces. -/
def indentStr (k : Nat) : String := ⟨List.replicate k ' '⟩

/-- json.dumps of a list of strings at indent level k. -/
def dumpStrList (k : Nat) (l : List String) : String :=
  match l with
  | [] => "[]"
  | _ =>
      "[\n" ++ joinWith ",\n" (l.map fun s => indentStr (k + 2) ++ jsonStr s) ++
      "\n" ++ indentStr k ++ "]"

/-- json.dumps rendering of a Bool. -/
def boolJson (b : Bool) : String := if b then "true" else "false"

/-- The personal object, keys in source dict order. -/
def dumpPersonal (k : Nat) (p : PersonalSection) : String :=
  "\x7b\n" ++
  indentStr (k + 2) ++ "\"name\": " ++ jsonStr p.name ++ ",\n" ++
  indentStr (k + 2) ++ "\"email\": " ++ jsonStr p.email ++ ",\n" ++
  indentStr (k + 2) ++ "\"location\": " ++ jsonStr p.location ++ ",\n" ++
  indentStr (k + 2) ++ "\"linkedin\": " ++ jsonStr p.linkedin ++ "\n" ++
  indentStr k ++ "\x7d"

/-- One experience object, keys in source dict order. -/
def dumpExperienceEntry (k : Nat) (e : ExperienceEntry) : String :=
  "\x7b\n" ++
  indentStr (k + 2) ++ "\"company\": " ++ jsonStr e.company ++ ",\n" ++
  indentStr (k + 2) ++ "\"title\": " ++ jsonStr e.title ++ ",\n" ++
  indentStr (k + 2) ++ "\"start\": " ++ jsonStr e.start ++ ",\n" ++
  indentStr (k + 2) ++ "\"end\": " ++ jsonStr e.endDate ++ ",\n" ++
  indentStr (k + 2) ++ "\"technologies\": " ++
    dumpStrList (k + 2) e.technologies ++ ",\n" ++
  indentStr (k + 2) ++ "\"current\": " ++ boolJson e.current ++ "\n" ++
  indentStr k ++ "\x7d"

/-- The experience array. -/
def dumpExperienceList (k : Nat) (l : List ExperienceEntry) : String :=
  match l with
  | [] => "[]"
  | _ =>
      "[\n" ++
      joinWith ",\n"
        (l.map fun e => indentStr (k + 2) ++ dumpExperienceEntry (k + 2) e) ++
      "\n" ++ indentStr k ++ "]"

/-- The salary object, keys in source dict order. -/
def dumpSalary (k : Nat) (s : SalarySection) : String :=
  "\x7b\n" ++
  indentStr (k + 2) ++ "\"preferred_rate\": " ++ intDec s.preferred_rate ++ ",\n" ++
  indentStr (k + 2) ++ "\"minimum_rate\": " ++ intDec s.minimum_rate ++ ",\n" ++
  indentStr (k + 2) ++ "\"currency\": " ++ jsonStr s.currency ++ ",\n" ++
  indentStr (k + 2) ++ "\"availability\": " ++ intDec s.availability ++ "\n" ++
  indentStr k ++ "\x7d"

/-- The metadata object, keys in source dict order. -/
def dumpMetadata (k : Nat) (m : MetadataSection) : String :=
  "\x7b\n" ++
  indentStr (k + 2) ++ "\"compressed_at\": " ++ jsonStr m.compressed_at ++ ",\n" ++
  indentStr (k + 2) ++ "\"version\": " ++ jsonStr m.version ++ "\n" ++
  indentStr k ++ "\x7d"

/-- json.dumps(compressed_json, indent=2) for the canonical document
(compression_script.py line 97). -/
def dumpDoc (d : CanonicalDoc) : String :=
  "\x7b\n" ++
  indentStr 2 ++ "\"personal\": " ++ dumpPersonal 2 d.personal ++ ",\n" ++
  indentStr 2 ++ "\"experience\": " ++ dumpExperienceList 2 d.experience ++ ",\n" ++
  indentStr 2 ++ "\"salary\": " ++ dumpSalary 2 d.salary ++ ",\n" ++
  indentStr 2 ++ "\"metadata\": " ++ dumpMetadata 2 d.metadata ++ "\n" ++
  "\x7d"

/-! ## md5 change detection (llm_evaluation.py lines 350-352)

_hash_json returns hashlib.md5(json_string.encode()).hexdigest().  The
algorithm is embedded on Nat with explicit reduction modulo 2 ^ 32. -/

/-- UTF-8 bytes of one character. -/
def charUTF8 (c : Char) : List Nat :=
  let n := c.toNat
  if n < 128 then [n]
  else if n < 2048 then [192 + n / 64, 128 + n % 64]
  else if n < 65536 then [224 + n / 4096, 128 + n / 64 % 64, 128 + n % 64]
  else [240 + n / 262144, 128 + n / 4096 % 64, 128 + n / 64 % 64, 128 + n % 64]

/-- str.encode(): the UTF-8 bytes of a string. -/
def utf8Bytes (s : String) : List Nat :=
  s.data.foldr (fun c acc => charUTF8 c ++ acc) []

/-- The eight little-endian bytes of the 64-bit message bit length. -/
def le8 (n : Nat) : List Nat :=
  [n % 256, n / 256 % 256, n / 65536 % 256, n / 16777216 % 256,
   n / 4294967296 % 256, n / 1099511627776 % 256,
   n / 281474976710656 % 256, n / 72057594037927936 % 256]

/-- md5 padding: append 0x80, zero-fill to 56 mod 64, then the bit
length as eight little-endian bytes. -/
def md5Pad (msg : List Nat) : List Nat :=
  msg ++ [128] ++ List.replicate ((119 - msg.length % 64) % 64) 0 ++
    le8 ((8 * msg.length) % 18446744073709551616)

/-- Split into 64-byte chunks; fuel starts at the list length. -/
def chunks64 : Nat → List Nat → List (List Nat)
  | _, [] => []
  | 0, _ => []
  | fuel + 1, l => l.take 64 :: chunks64 fuel (l.drop 64)

/-- The 64 md5 sine constants. -/
def md5K : List Nat :=
  [0xd76aa478, 0xe8c7b756, 0x242070db, 0xc1bdceee,
   0xf57c0faf, 0x4787c62a, 0xa8304613, 0xfd469501,
   0x698098d8, 0x8b44f7af, 0xffff5bb1, 0x895cd7be,
   0x6b901122, 0xfd987193, 0xa679438e, 0x49b40821,
   0xf61e2562, 0xc040b340, 0x265e5a51, 0xe9b6c7aa,
   0xd62f105d, 0x02441453, 0xd8a1e681, 0xe7d3fbc8,
   0x21e1cde6, 0xc33707d6, 0xf4d50d87, 0x455a14ed,
   0xa9e3e905, 0xfcefa3f8, 0x676f02d9, 0x8d2a4c8a,
   0xfffa3942, 0x8771f681, 0x6d9d6122, 0xfde5380c,
   0xa4beea44, 0x4bdecfa9, 0xf6bb4b60, 0xbebfbc70,
   0x289b7ec6, 0xeaa127fa, 0xd4ef3085, 0x04881d05,
   0xd9d4d039, 0xe6db99e5, 0x1fa27cf8, 0xc4ac5665,
   0xf4292244, 0x432aff97, 0xab9423a7, 0xfc93a039,
   0x655b59c3, 0x8f0ccc92, 0xffeff47d, 0x85845dd1,
   0x6fa87e4f, 0xfe2ce6e0, 0xa3014314, 0x4e0811a1,
   0xf7537e82, 0xbd3af235, 0x2ad7d2bb, 0xeb86d391]

/-- The 64 md5 per-round left-rotation amounts. -/
def md5S : List Nat :=
  [7, 12, 17, 22, 7, 12, 17, 22, 7, 12, 17, 22, 7, 12, 17, 22,
   5, 9, 14, 20, 5, 9, 14, 20, 5, 9, 14, 20, 5, 9, 14, 20,
   4, 11, 16, 23, 4, 11, 16, 23, 4, 11, 16, 23, 4, 11, 16, 23,
   6, 10, 15, 21, 6, 10, 15, 21, 6, 10, 15, 21, 6, 10, 15, 21]

/-- Rotate a 32-bit word left by r. -/
def rotl32 (x r : Nat) : Nat :=
  (x * 2 ^ r + x / 2 ^ (32 - r)) % 4294967296

/-- The md5 round mixing function for round i. -/
def md5F (i b c d : Nat) : Nat :=
  if i < 16 then Nat.lor (Nat.land b c) (Nat.land (Nat.xor b 4294967295) d)
  else if i < 32 then Nat.lor (Nat.land d b) (Nat.land (Nat.xor d 4294967295) c)
  else if i < 48 then Nat.xor b (Nat.xor c d)
  else Nat.xor c (Nat.lor b (Nat.xor d 4294967295))

/-- The md5 message word index for round i. -/
def md5G (i : Nat) : Nat :=
  if i < 16 then i
  else if i < 32 then (5 * i + 1) % 16
  else if i < 48 then (3 * i + 5) % 16
  else (7 * i) % 16

/-- The i-th little-endian 32-bit word of a 64-byte chunk. -/
def leWord (chunk : List Nat) (i : Nat) : Nat :=
  chunk.getD (4 * i) 0 + 256 * chunk.getD (4 * i + 1) 0 +
    65536 * chunk.getD (4 * i + 2) 0 + 16777216 * chunk.getD (4 * i + 3) 0

/-- One md5 round on the running state (a, b, c, d). -/
def md5Round (chunk : List Nat) (st : Nat × Nat × Nat × Nat) (i : Nat) :
    Nat × Nat × Nat × Nat :=
  let f := (md5F i st.2.1 st.2.2.1 st.2.2.2 + st.1 + md5K.getD i 0 +
            leWord chunk (md5G i)) % 4294967296
  (st.2.2.2, (st.2.1 + rotl32 f (md5S.getD i 0)) % 4294967296,
   st.2.1, st.2.2.1)

/-- Process one 64-byte chunk: 64 rounds then add into the state. -/
def md5ProcessChunk (st : Nat × Nat × Nat × Nat) (chunk : List Nat) :
    Nat × Nat × Nat × Nat :=
  let r := (List.range 64).foldl (md5Round chunk) st
  ((st.1 + r.1) % 4294967296, (st.2.1 + r.2.1) % 4294967296,
   (st.2.2.1 + r.2.2.1) % 4294967296, (st.2.2.2 + r.2.2.2) % 4294967296)

/-- The md5 initial state. -/
def md5Init : Nat × Nat × Nat × Nat :=
  (0x67452301, 0xefcdab89, 0x98badcfe, 0x10325476)

/-- The four 32-bit state words of the md5 digest of a string. -/
def md5Words (s : String) : Nat × Nat × Nat × Nat :=
  let msg := md5Pad (utf8Bytes s)
  (chunks64 msg.length msg).foldl md5ProcessChunk md5Init

/-- The four little-endian bytes of a 32-bit word. -/
def word4LE (w : Nat) : List Nat :=
  [w % 256, w / 256 % 256, w / 65536 % 256, w / 16777216 % 256]

/-- The sixteen digest bytes. -/
def md5Bytes (s : String) : List Nat :=
  word4LE (md5Words s).1 ++ word4LE (md5Words s).2.1 ++
  word4LE (md5Words s).2.2.1 ++ word4LE (md5Words s).2.2.2

/-- Two lowercase hex digits of one byte. -/
def byteHex (b : Nat) : List Char := [hexDigitChar (b / 16 % 16), hexDigitChar (b % 16)]

/-- LLMEvaluator._hash_json: the lowercase hex md5 digest of the UTF-8
bytes of the string. -/
def md5hex (s : String) : String :=
  ⟨(md5Bytes s).foldr (fun b acc => byteHex b ++ acc) []⟩

set_option maxRecDepth 10000 in
/-- Standard md5 test vector checking the embedding of _hash_json. -/
theorem md5hex_empty_vector : md5hex "" = "d41d8cd98f00b204e9800998ecf8427e" := by
  decide

set_option maxRecDepth 10000 in
/-- Standard md5 test vector checking the embedding of _hash_json. -/
theorem md5hex_abc_vector : md5hex "abc" = "900150983cd24fb0d6963f7d28e17f72" := by
  decide

/-! ## The table store

Durable state of the four Airtable tables, plus failure injection for
the remote calls the scripts guard with try/except: a sub-table search
may raise (per applicant id), and the update of the Applicants record
may raise.  Record ids created by create are rec0, rec1, ... from
nextId. -/

/-- Fields of an Applicants record that the three scripts touch. -/
structure ApplicantFields where
  compressedJSON : Option String
  lastCompressed : Option String
  lastDecompressed : Option String
  llmSummary : Option String
  llmScore : Option Int
  llmFollowUps : Option String
  llmIssues : Option String
  llmEvalDate : Option String
  lastJSONHash : Option String
deriving DecidableEq

/-- A blank Applicants record value. -/
def blankApplicant : ApplicantFields :=
  { compressedJSON := none, lastCompressed := none, lastDecompressed := none,
    llmSummary := none, llmScore := none, llmFollowUps := none,
    llmIssues := none, llmEvalDate := none, lastJSONHash := none }

/-- The table store state. -/
structure Store where
  applicants : List (Rec ApplicantFields)
  personalTable : List (Rec PersonalRow)
  experienceTable : List (Rec ExperienceRow)
  salaryTable : List (Rec SalaryRow)
  personalSearchFailing : List String
  experienceSearchFailing : List String
  salarySearchFailing : List String
  applicantUpdateFailing : List String
  nextId : Nat
deriving DecidableEq

/-- table.search(Applicant, applicant_id) on Personal Details: the rows
whose Applicant link holds the id. -/
def searchPersonal (s : Store) (aid : String) : List (Rec PersonalRow) :=
  s.personalTable.filter fun r => r.fields.applicant.contains aid

/-- table.search(Applicant, applicant_id) on Work Experience. -/
def searchExperience (s : Store) (aid : String) : List (Rec ExperienceRow) :=
  s.experienceTable.filter fun r => r.fields.applicant.contains aid

/-- table.search(Applicant, applicant_id) on Salary Preferences. -/
def searchSalary (s : Store) (aid : String) : List (Rec SalaryRow) :=
  s.salaryTable.filter fun r => r.fields.applicant.contains aid

/-- applicants_table.get(applicant_id). -/
def getApplicant (s : Store) (aid : String) : Option (Rec ApplicantFields) :=
  s.applicants.find? fun r => r.id == aid

/-- applicants_table.update(applicant_id, fields): rewrite the fields of
the record with that id. -/
def updateApplicant (s : Store) (aid : String)
    (f : ApplicantFields → ApplicantFields) : Store :=
  { s with applicants :=
      s.applicants.map fun r =>
        if r.id == aid then { r with fields := f r.fields } else r }

/-- The id given to the next created record. -/
def freshId (s : Store) : String := "rec" ++ natDec s.nextId

/-! ## Compressor (compression_script.py) -/

/-- _fetch_personal_data: search, take the first match, collapse both
an empty result and a raised exception to None.  A fetched fields dict
is never falsy because the Applicant link that matched the search is in
it, so None is the only falsy value the all() check at line 62 sees. -/
def fetch_personal_data (s : Store) (aid : String) : Option PersonalRow :=
  if s.personalSearchFailing.contains aid then none
  else
    match searchPersonal s aid with
    | [] => none
    | r :: _ => some r.fields

/-- _fetch_experience_data: all matches; a raised exception collapses
to the empty list. -/
def fetch_experience_data (s : Store) (aid : String) : List ExperienceRow :=
  if s.experienceSearchFailing.contains aid then []
  else (searchExperience s aid).map Rec.fields

/-- _fetch_salary_data: search, first match, exceptions give None. -/
def fetch_salary_data (s : Store) (aid : String) : Option SalaryRow :=
  if s.salarySearchFailing.contains aid then none
  else
    match searchSalary s aid with
    | [] => none
    | r :: _ => some r.fields

/-- The exception a raising remote call surfaces. -/
inductive AirtableError
  | transport
deriving DecidableEq

instance {e a : Type} [DecidableEq e] [DecidableEq a] :
    DecidableEq (Except e a) := fun x y =>
  match x, y with
  | Except.error u, Except.error v =>
      if h : u = v then isTrue (by rw [h])
      else isFalse (by intro hh; cases hh; exact h rfl)
  | Except.ok u, Except.ok v =>
      if h : u = v then isTrue (by rw [h])
      else isFalse (by intro hh; cases hh; exact h rfl)
  | Except.error _, Except.ok _ => isFalse (by intro hh; cases hh)
  | Except.ok _, Except.error _ => isFalse (by intro hh; cases hh)

/-- The canonical document assembled at compression_script.py lines
67-94, with the wall clock passed in explicitly. -/
def buildCompressedDoc (personal : PersonalRow)
    (experience : List ExperienceRow) (salary : SalaryRow) (now : String) :
    CanonicalDoc :=
  { personal := personalToCanonical personal
    experience := experience.map experienceToCanonical
    salary := salaryToCanonical salary
    metadata := { compressed_at := now, version := "1.0" } }

/-- AirtableCompressor.compress_applicant_data: fetch the three
sub-records, return None when Personal or Salary is missing, otherwise
assemble the document, write its json string and the timestamp onto the
Applicants record (the only write), and return the document.  A raised
update propagates to the caller. -/
def compress_applicant_data (s : Store) (aid : String) (now : String) :
    Except AirtableError (Store × Option CanonicalDoc) :=
  match fetch_personal_data s aid, fetch_salary_data s aid with
  | some personal, some salary =>
      let compressed_json :=
        buildCompressedDoc personal (fetch_experience_data s aid) salary now
      if s.applicantUpdateFailing.contains aid then
        Except.error AirtableError.transport
      else
        Except.ok
          (updateApplicant s aid fun f =>
            { f with compressedJSON := some (dumpDoc compressed_json)
                     lastCompressed := some now },
           some compressed_json)
  | _, _ => Except.ok (s, none)

/-- The Compressed JSON field of an applicant. -/
def applicantJSON (s : Store) (aid : String) : Option String :=
  (getApplicant s aid).bind fun r => r.fields.compressedJSON

/-- The Last JSON Hash field of an applicant. -/
def applicantHash (s : Store) (aid : String) : Option String :=
  (getApplicant s aid).bind fun r => r.fields.lastJSONHash

/-! ## Decompressor (decompression_script.py) -/

/-- _update_personal_details: upsert — update the first matching row in
place, else create one; the full update_data dict is personalToNative. -/
def update_personal_details (s : Store) (aid : String)
    (personal_data : PersonalSection) : Store :=
  match searchPersonal s aid with
  | r :: _ =>
      { s with personalTable :=
          s.personalTable.map fun x =>
            if x.id == r.id then { x with fields := personalToNative aid personal_data }
            else x }
  | [] =>
      { s with
          personalTable := s.personalTable ++
            [{ id := freshId s, fields := personalToNative aid personal_data }],
          nextId := s.nextId + 1 }

/-- One experience_table.create call of _update_work_experience. -/
def createExperienceRow (aid : String) (st : Store) (exp : ExperienceEntry) :
    Store :=
  { st with
      experienceTable := st.experienceTable ++
        [{ id := freshId st, fields := experienceToNative aid exp }],
      nextId := st.nextId + 1 }

/-- _update_work_experience: delete every row linked to the applicant,
then create one fresh row per document entry, in document order. -/
def update_work_experience (s : Store) (aid : String)
    (experience_data : List ExperienceEntry) : Store :=
  let afterDelete :=
    { s with experienceTable :=
        s.experienceTable.filter fun r => !(r.fields.applicant.contains aid) }
  experience_data.foldl (createExperienceRow aid) afterDelete

/-- _update_salary_preferences: upsert like the personal one. -/
def update_salary_preferences (s : Store) (aid : String)
    (salary_data : SalarySection) : Store :=
  match searchSalary s aid with
  | r :: _ =>
      { s with salaryTable :=
          s.salaryTable.map fun x =>
            if x.id == r.id then { x with fields := salaryToNative aid salary_data }
            else x }
  | [] =>
      { s with
          salaryTable := s.salaryTable ++
            [{ id := freshId s, fields := salaryToNative aid salary_data }],
          nextId := s.nextId + 1 }

/-- decompress_applicant_data after json.loads succeeded
(decompression_script.py lines 63-76): update the three sub-tables from
the parsed document, then stamp Last Decompressed.  The string parsing
step itself is not embedded; the operation receives the parsed
document. -/
def decompress_doc (s : Store) (aid : String) (compressed_data : CanonicalDoc)
    (now : String) : Store :=
  let s1 := update_personal_details s aid compressed_data.personal
  let s2 := update_work_experience s1 aid compressed_data.experience
  let s3 := update_salary_preferences s2 aid compressed_data.salary
  updateApplicant s3 aid fun f => { f with lastDecompressed := some now }

/-! ## Validator (decompression_script.py lines 187-267) -/

/-- The per-section result map of validate_data_integrity. -/
structure ValidationResults where
  personal : Bool
  experience : Bool
  salary : Bool
deriving DecidableEq

/-- _validate_personal_data: first matching row must agree on the four
mapped fields; no row, or a raised search, gives False. -/
def validate_personal_data (s : Store) (aid : String)
    (expected : PersonalSection) : Bool :=
  if s.personalSearchFailing.contains aid then false
  else
    match searchPersonal s aid with
    | [] => false
    | r :: _ =>
        r.fields.fullName == some expected.name &&
        r.fields.email == some expected.email &&
        r.fields.location == some expected.location &&
        r.fields.linkedin == some expected.linkedin

/-- _validate_experience_data: the sorted company/title comparison of
experienceRowsMatch on the freshly searched rows; a raised search gives
False. -/
def validate_experience_data (s : Store) (aid : String)
    (expected : List ExperienceEntry) : Bool :=
  if s.experienceSearchFailing.contains aid then false
  else experienceRowsMatch (searchExperience s aid) expected

/-- _validate_salary_data: first matching row must agree on the four
mapped fields. -/
def validate_salary_data (s : Store) (aid : String)
    (expected : SalarySection) : Bool :=
  if s.salarySearchFailing.contains aid then false
  else
    match searchSalary s aid with
    | [] => false
    | r :: _ =>
        r.fields.preferredRate == some expected.preferred_rate &&
        r.fields.minimumRate == some expected.minimum_rate &&
        r.fields.currency == some expected.currency &&
        r.fields.availability == some expected.availability

/-- validate_data_integrity on an applicant whose document parsed: the
per-section boolean map built from the three section validators. -/
def validate_data_integrity (s : Store) (aid : String)
    (compressed_data : CanonicalDoc) : ValidationResults :=
  { personal := validate_personal_data s aid compressed_data.personal
    experience := validate_experience_data s aid compressed_data.experience
    salary := validate_salary_data s aid compressed_data.salary }

/-! ## Evaluator record update and change detection (llm_evaluation.py) -/

/-- _update_applicant_record: write the evaluation fields and the md5
digest of the evaluated document string. -/
def update_applicant_record (s : Store) (aid : String)
    (evaluation_result : EvalResult) (compressed_json : String)
    (now : String) : Store :=
  updateApplicant s aid fun f =>
    { f with
        llmSummary := some evaluation_result.summary
        llmScore := some evaluation_result.score
        llmFollowUps :=
          some (joinWith "\n" (evaluation_result.follow_ups.map fun q => "• " ++ q))
        llmIssues :=
          some (if evaluation_result.issues.isEmpty then "None"
                else joinWith ", " evaluation_result.issues)
        llmEvalDate := some now
        lastJSONHash := some (md5hex compressed_json) }

/-- _needs_evaluation: needed when there is no previous evaluation
marker, or when the stored digest differs from the digest of the
current document string; a raised get also answers true. -/
def needs_evaluation (s : Store) (aid : String) (current_json : String) : Bool :=
  match getApplicant s aid with
  | none => true
  | some r =>
      match r.fields.llmSummary with
      | none => true
      | some summ =>
          if summ = "" then true
          else r.fields.lastJSONHash.getD "" != md5hex current_json

/-! ## Batch driver (compression_script.py lines 141-160) -/

/-- The selection formula of compress_all_pending: Compressed JSON empty
and the Personal Details link non-empty. -/
def pendingPredicate (s : Store) (r : Rec ApplicantFields) : Bool :=
  (r.fields.compressedJSON.getD "" == "") && !(searchPersonal s r.id).isEmpty

/-- One iteration of the compress_all_pending loop: try the applicant,
keep the updated store on success, record the id and keep going on a
raised exception. -/
def compressBatchStep (now : String) (acc : Store × List String)
    (aid : String) : Store × List String :=
  match compress_applicant_data acc.1 aid now with
  | Except.ok p => (p.1, acc.2)
  | Except.error _ => (acc.1, acc.2 ++ [aid])

/-- compress_all_pending: select the pending applicants once, then call
compress_applicant_data on each, catching and logging (collecting) a
raised exception and continuing with the next applicant. -/
def compress_all_pending (s : Store) (now : String) : Store × List String :=
  let pending := (s.applicants.filter (pendingPredicate s)).map Rec.id
  pending.foldl (compressBatchStep now) (s, [])

/-- Whether compress_applicant_data raises on this applicant: both
required sub-records fetch, and the applicant update is set to fail. -/
def raisesOn (s : Store) (aid : String) : Bool :=
  (fetch_personal_data s aid).isSome && (fetch_salary_data s aid).isSome &&
    s.applicantUpdateFailing.contains aid

/-- Filtering by a predicate after filtering by its negation is empty. -/
theorem filter_not_filter_nil {α : Type} (p : α → Bool) :
    ∀ l : List α, (l.filter fun a => !(p a)).filter p = [] := by
  intro l
  induction l with
  | nil => rfl
  | cons x xs ih =>
      by_cases h : p x = true
      · simp [List.filter_cons, h, ih]
      · simp only [Bool.not_eq_true] at h
        simp [List.filter_cons, h, ih]

/-- Filtering twice by the same predicate filters once. -/
theorem filter_filter_self {α : Type} (p : α → Bool) :
    ∀ l : List α, (l.filter p).filter p = l.filter p := by
  intro l
  induction l with
  | nil => rfl
  | cons x xs ih =>
      by_cases h : p x = true
      · simp [List.filter_cons, h, ih]
      · simp only [Bool.not_eq_true] at h
        simp [List.filter_cons, h, ih]

/-- A row created by _update_work_experience is linked to the
applicant. -/
theorem experienceToNative_linked (aid : String) (exp : ExperienceEntry) :
    (experienceToNative aid exp).applicant.contains aid = true := by
  simp [experienceToNative, List.contains]

/-- Effect of the create loop of _update_work_experience on the rows
linked to the applicant and on everything else. -/
theorem createExperienceRow_foldl (aid : String) :
    ∀ (entries : List ExperienceEntry) (st : Store),
      (((entries.foldl (createExperienceRow aid) st).experienceTable.filter
          fun r => r.fields.applicant.contains aid).map Rec.fields
        = ((st.experienceTable.filter
              fun r => r.fields.applicant.contains aid).map Rec.fields)
            ++ entries.map (experienceToNative aid)) ∧
      ((entries.foldl (createExperienceRow aid) st).experienceTable.filter
          fun r => !(r.fields.applicant.contains aid))
        = st.experienceTable.filter fun r => !(r.fields.applicant.contains aid) := by
  intro entries
  induction entries with
  | nil => intro st; exact ⟨by simp, rfl⟩
  | cons e rest ih =>
      intro st
      rcases ih (createExperienceRow aid st e) with ⟨ih1, ih2⟩
      constructor
      · rw [List.foldl_cons, ih1]
        simp [createExperienceRow, List.filter_append, experienceToNative]
      · rw [List.foldl_cons, ih2]
        simp [createExperienceRow, List.filter_append, experienceToNative]

/-- update_personal_details does not touch the experience table. -/
theorem update_personal_details_experienceTable (s : Store) (aid : String)
    (p : PersonalSection) :
    (update_personal_details s aid p).experienceTable = s.experienceTable := by
  unfold update_personal_details
  rcases searchPersonal s aid with _ | ⟨r, rest⟩ <;> rfl

/-- update_salary_preferences does not touch the experience table. -/
theorem update_salary_preferences_experienceTable (s : Store) (aid : String)
    (p : SalarySection) :
    (update_salary_preferences s aid p).experienceTable = s.experienceTable := by
  unfold update_salary_preferences
  rcases searchSalary s aid with _ | ⟨r, rest⟩ <;> rfl

/-- The experience table after update_work_experience. -/
theorem update_work_experience_spec (s : Store) (aid : String)
    (entries : List ExperienceEntry) :
    (((update_work_experience s aid entries).experienceTable.filter
        fun r => r.fields.applicant.contains aid).map Rec.fields
      = entries.map (experienceToNative aid)) ∧
    ((update_work_experience s aid entries).experienceTable.filter
        fun r => !(r.fields.applicant.contains aid))
      = s.experienceTable.filter fun r => !(r.fields.applicant.contains aid) := by
  unfold update_work_experience
  rcases createExperienceRow_foldl aid entries
    { s with experienceTable :=
        s.experienceTable.filter fun r => !(r.fields.applicant.contains aid) }
    with ⟨h1, h2⟩
  constructor
  · rw [h1]
    simp [filter_not_filter_nil]
  · rw [h2]
    simp [filter_filter_self]

/-- C3: decompressing a document with n experience entries removes every
Experience row linked to the applicant and creates exactly n fresh rows,
one per entry in document order; rows of other applicants are untouched.
With 5 existing rows and a 2-entry document exactly 2 rows remain,
matching the document in order. -/
theorem decompress_doc_replaces_experience (s : Store) (aid : String)
    (doc : CanonicalDoc) (now : String) :
    (((decompress_doc s aid doc now).experienceTable.filter
        fun r => r.fields.applicant.contains aid).map Rec.fields
      = doc.experience.map (experienceToNative aid)) ∧
    (((decompress_doc s aid doc now).experienceTable.filter
        fun r => r.fields.applicant.contains aid).length
      = doc.experience.length) ∧
    ((decompress_doc s aid doc now).experienceTable.filter
        (fun r => !(r.fields.applicant.contains aid))
      = s.experienceTable.filter fun r => !(r.fields.applicant.contains aid)) := by
  have hexp : (decompress_doc s aid doc now).experienceTable
      = (update_work_experience (update_personal_details s aid doc.personal)
          aid doc.experience).experienceTable := by
    unfold decompress_doc
    rw [show ∀ t : Store, (updateApplicant t aid fun f =>
        { f with lastDecompressed := some now }).experienceTable
        = t.experienceTable from fun t => rfl]
    rw [update_salary_preferences_experienceTable]
  rcases update_work_experience_spec (update_personal_details s aid doc.personal)
    aid doc.experience with ⟨h1, h2⟩
  rw [update_personal_details_experienceTable] at h2
  refine ⟨by rw [hexp, h1], ?_, by rw [hexp, h2]⟩
  have := congrArg List.length (hexp ▸ h1)
  simpa using this

/-- find? of the update predicate over the conditional rewrite of a
record list: the found record is rewritten, since the rewrite keeps
ids. -/
theorem find?_update_list (aid : String) (f : ApplicantFields → ApplicantFields) :
    ∀ l : List (Rec ApplicantFields),
      ((l.map fun r =>
          if r.id == aid then { r with fields := f r.fields } else r).find?
            fun r => r.id == aid)
        = (l.find? fun r => r.id == aid).map
            fun r => { r with fields := f r.fields } := by
  intro l
  induction l with
  | nil => rfl
  | cons r rest ih =>
      by_cases hr : (r.id == aid) = true
      · simp only [List.map_cons, if_pos hr]
        rw [@List.find?_cons_of_pos (Rec ApplicantFields) (fun x => x.id == aid)
            { r with fields := f r.fields } _ hr,
          @List.find?_cons_of_pos (Rec ApplicantFields) (fun x => x.id == aid) r _ hr]
        rfl
      · simp only [List.map_cons, if_neg hr]
        rw [@List.find?_cons_of_neg (Rec ApplicantFields) (fun x => x.id == aid) r _ hr,
          @List.find?_cons_of_neg (Rec ApplicantFields) (fun x => x.id == aid) r _ hr]
        exact ih

/-- Looking up an applicant after updateApplicant sees the modified
fields (updateApplicant keeps every record id). -/
theorem getApplicant_updateApplicant (s : Store) (aid : String)
    (f : ApplicantFields → ApplicantFields) :
    getApplicant (updateApplicant s aid f) aid
      = (getApplicant s aid).map fun r => { r with fields := f r.fields } := by
  unfold getApplicant updateApplicant
  exact find?_update_list aid f s.applicants

/-- C5: an applicant with no Personal row, or no Salary row, makes
compress_applicant_data return the missing-prerequisite failure (None)
and leaves the whole store unchanged, and when both sub-records fetch
and the update call does not raise, compression succeeds — even with an
empty Experience list — writing only the document string and the
timestamp. -/
theorem compress_missing_prerequisite (s : Store) (aid now : String) :
    ((searchPersonal s aid = [] ∨ searchSalary s aid = []) →
      compress_applicant_data s aid now = Except.ok (s, none)) ∧
    (∀ p sal, fetch_personal_data s aid = some p →
      fetch_salary_data s aid = some sal →
      s.applicantUpdateFailing.contains aid = false →
      compress_applicant_data s aid now = Except.ok
        (updateApplicant s aid fun f =>
          { f with
              compressedJSON := some (dumpDoc (buildCompressedDoc p
                (fetch_experience_data s aid) sal now))
              lastCompressed := some now },
         some (buildCompressedDoc p (fetch_experience_data s aid) sal now))) := by
  constructor
  · intro h
    rcases h with h | h
    · have hp : fetch_personal_data s aid = none := by
        unfold fetch_personal_data
        rw [h]
        split_ifs <;> rfl
      unfold compress_applicant_data
      rcases hsal : fetch_salary_data s aid with _ | v <;> simp [hp, hsal]
    · have hs : fetch_salary_data s aid = none := by
        unfold fetch_salary_data
        rw [h]
        split_ifs <;> rfl
      unfold compress_applicant_data
      rcases hper : fetch_personal_data s aid with _ | v <;> simp [hs, hper]
  · intro p sal hp hsal hupd
    unfold compress_applicant_data
    simp only [hp, hsal, hupd]
    rfl

/-- Concrete Personal Details fields used by witnesses. -/
def w5personalRow : PersonalRow :=
  { fullName := some "A", email := some "a@x.com", location := some "US",
    linkedin := some "", applicant := ["recA"] }

/-- Concrete Salary Preferences fields used by witnesses. -/
def w5salaryRow : SalaryRow :=
  { preferredRate := some 50, minimumRate := some 40, currency := some "USD",
    availability := some 20, applicant := ["recA"] }

/-- A store with a Salary sub-record but no Personal sub-record. -/
def w5absent : Store :=
  { applicants := [{ id := "recA", fields := blankApplicant }],
    personalTable := [], experienceTable := [],
    salaryTable := [{ id := "recS", fields := w5salaryRow }],
    personalSearchFailing := [], experienceSearchFailing := [],
    salarySearchFailing := [], applicantUpdateFailing := [], nextId := 0 }

/-- The same store with the Personal sub-record present (and an empty
Experience table). -/
def w5present : Store :=
  { w5absent with personalTable := [{ id := "recP", fields := w5personalRow }] }

/-- The document compression assembles on w5present at time t1. -/
def c2Doc : CanonicalDoc :=
  buildCompressedDoc w5personalRow [] w5salaryRow "t1"

/-- Witness for C5: on the store missing the Personal row compression
returns None and changes nothing; with the row present (and empty
experience) it succeeds and writes the document. -/
theorem compress_missing_prerequisite_witness :
    compress_applicant_data w5absent "recA" "t1" = Except.ok (w5absent, none) ∧
    compress_applicant_data w5present "recA" "t1" = Except.ok
      (updateApplicant w5present "recA" fun f =>
        { f with
            compressedJSON := some (dumpDoc (buildCompressedDoc w5personalRow
              (fetch_experience_data w5present "recA") w5salaryRow "t1"))
            lastCompressed := some "t1" },
       some (buildCompressedDoc w5personalRow
         (fetch_experience_data w5present "recA") w5salaryRow "t1")) :=
  ⟨(compress_missing_prerequisite w5absent "recA" "t1").1 (Or.inl (by decide)),
   (compress_missing_prerequisite w5present "recA" "t1").2 w5personalRow
     w5salaryRow (by decide) (by decide) (by decide)⟩

/-- The caller-visible outcome of one compression: the raised error or
the returned document, together with whether any write happened. -/
def compressOutcome (s : Store) (aid now : String) :
    Except AirtableError (Bool × Option CanonicalDoc) :=
  (compress_applicant_data s aid now).map fun p => (p.1 != s, p.2)

/-- A store whose applicant lacks the Personal sub-record (missing
data), with a working transport. -/
def w7absent : Store := w5absent

/-- A store whose applicant has a Personal sub-record, but whose
Personal Details search raises (transport failure). -/
def w7failing : Store :=
  { w5present with personalSearchFailing := ["recA"] }

/-- Counterexample to C7: a missing Personal sub-record and a raising
Personal fetch produce identical outcomes from compress_applicant_data
— both yield None with no write — so the two failure reasons are not
distinguishable by the caller. -/
theorem compress_failure_reasons_counterexample :
    (searchPersonal w7absent "recA" = [] ∧
      w7absent.personalSearchFailing = []) ∧
    (searchPersonal w7failing "recA" ≠ [] ∧
      w7failing.personalSearchFailing = ["recA"]) ∧
    compressOutcome w7absent "recA" "t1" = compressOutcome w7failing "recA" "t1" := by
  refine ⟨⟨by decide, rfl⟩, ⟨by decide, rfl⟩, by decide⟩

/-- C7 amended: compress_applicant_data collapses a missing sub-record
and a raised sub-record fetch into one and the same None outcome with
no write; the only failure it surfaces distinctly is an exception from
the final Applicants update. -/
theorem compress_failure_modes (s : Store) (aid now : String) :
    ((fetch_personal_data s aid = none ∨ fetch_salary_data s aid = none) →
      compress_applicant_data s aid now = Except.ok (s, none)) ∧
    (∀ p sal, fetch_personal_data s aid = some p →
      fetch_salary_data s aid = some sal →
      s.applicantUpdateFailing.contains aid = true →
      compress_applicant_data s aid now = Except.error AirtableError.transport) := by
  constructor
  · intro h
    unfold compress_applicant_data
    rcases h with h | h
    · rcases hsal : fetch_salary_data s aid with _ | v <;> simp [h, hsal]
    · rcases hper : fetch_personal_data s aid with _ | v <;> simp [h, hper]
  · intro p sal hp hsal hupd
    unfold compress_applicant_data
    simp only [hp, hsal, hupd]
    rfl

/-- A store where the applicant update itself raises. -/
def w7updateFailing : Store :=
  { w5present with applicantUpdateFailing := ["recA"] }

/-- Witness for the amended C7 at concrete stores: fetch failure gives
the None outcome, an update failure raises. -/
theorem compress_failure_modes_witness :
    compress_applicant_data w7failing "recA" "t1"
      = Except.ok (w7failing, none) ∧
    compress_applicant_data w7updateFailing "recA" "t1"
      = Except.error AirtableError.transport :=
  ⟨(compress_failure_modes w7failing "recA" "t1").1 (Or.inl (by decide)),
   (compress_failure_modes w7updateFailing "recA" "t1").2 w5personalRow
     w5salaryRow (by decide) (by decide) (by decide)⟩

/-- The store written by the successful compression of w5present. -/
def c2After : Store :=
  updateApplicant w5present "recA" fun f =>
    { f with compressedJSON := some (dumpDoc c2Doc), lastCompressed := some "t1" }

/-- Counterexample to C2: compressing an applicant that has never been
evaluated writes a fresh document but leaves the stored content hash
(absent) untouched, so right after the run the stored digest is not the
hash of the document just written. -/
theorem compress_hash_stale_counterexample :
    compress_applicant_data w5present "recA" "t1"
      = Except.ok (c2After, some c2Doc) ∧
    applicantJSON c2After "recA" = some (dumpDoc c2Doc) ∧
    applicantHash c2After "recA" ≠ (applicantJSON c2After "recA").map md5hex := by
  refine ⟨by decide, by decide, ?_⟩
  intro h
  rw [show applicantHash c2After "recA" = none from by decide,
    show applicantJSON c2After "recA" = some (dumpDoc c2Doc) from by decide] at h
  exact Option.noConfusion h

/-- C2 amended: compress_applicant_data never writes Last JSON Hash —
after any successful run the stored hash is whatever it was before —
and the hash is written only by the evaluator, whose
_update_applicant_record stores the digest of exactly the document
string it was handed. -/
theorem compress_preserves_hash_eval_writes_hash (s : Store) (aid now : String)
    (s' : Store) (d : Option CanonicalDoc)
    (hc : compress_applicant_data s aid now = Except.ok (s', d)) :
    applicantHash s' aid = applicantHash s aid ∧
    (∀ ev cj t, applicantHash (update_applicant_record s aid ev cj t) aid
      = (getApplicant s aid).map fun _ => md5hex cj) := by
  constructor
  · unfold compress_applicant_data at hc
    rcases hp : fetch_personal_data s aid with _ | p <;> rw [hp] at hc
    · rcases hsal : fetch_salary_data s aid with _ | sal <;> rw [hsal] at hc <;>
        simp only [Except.ok.injEq, Prod.mk.injEq] at hc <;> rw [← hc.1]
    · rcases hsal : fetch_salary_data s aid with _ | sal <;> rw [hsal] at hc
      · simp only [Except.ok.injEq, Prod.mk.injEq] at hc
        rw [← hc.1]
      · by_cases hupd : s.applicantUpdateFailing.contains aid = true
        · simp [hupd] at hc
          rw [if_pos (show aid ∈ s.applicantUpdateFailing by simpa using hupd)]
            at hc
          cases hc
        · simp only [Bool.not_eq_true] at hupd
          simp only [hupd, Bool.false_eq_true, if_false, Except.ok.injEq,
            Prod.mk.injEq] at hc
          rw [← hc.1]
          unfold applicantHash
          rw [getApplicant_updateApplicant]
          rcases getApplicant s aid with _ | r <;> rfl
  · intro ev cj t
    unfold applicantHash update_applicant_record
    rw [getApplicant_updateApplicant]
    rcases getApplicant s aid with _ | r <;> rfl

/-- Witness for C2 amended at the concrete compression of w5present and
a concrete evaluator update. -/
theorem compress_preserves_hash_witness :
    applicantHash c2After "recA" = applicantHash w5present "recA" ∧
    applicantHash
        (update_applicant_record w5present "recA" parseFallbackResult "S0" "t2")
        "recA"
      = (getApplicant w5present "recA").map fun _ => md5hex "S0" :=
  ⟨(compress_preserves_hash_eval_writes_hash w5present "recA" "t1" c2After
      (some c2Doc) (by decide)).1,
   (compress_preserves_hash_eval_writes_hash w5present "recA" "t1" c2After
      (some c2Doc) (by decide)).2 parseFallbackResult "S0" "t2"⟩

/-- One chunk step keeps every md5 state word below 2 ^ 32. -/
theorem md5ProcessChunk_bound (st : Nat × Nat × Nat × Nat) (chunk : List Nat) :
    (md5ProcessChunk st chunk).1 < 4294967296 ∧
    (md5ProcessChunk st chunk).2.1 < 4294967296 ∧
    (md5ProcessChunk st chunk).2.2.1 < 4294967296 ∧
    (md5ProcessChunk st chunk).2.2.2 < 4294967296 := by
  unfold md5ProcessChunk
  exact ⟨Nat.mod_lt _ (by norm_num), Nat.mod_lt _ (by norm_num),
    Nat.mod_lt _ (by norm_num), Nat.mod_lt _ (by norm_num)⟩

/-- The md5 state words of any string are below 2 ^ 32. -/
theorem md5Words_bound (s : String) :
    (md5Words s).1 < 4294967296 ∧ (md5Words s).2.1 < 4294967296 ∧
    (md5Words s).2.2.1 < 4294967296 ∧ (md5Words s).2.2.2 < 4294967296 := by
  unfold md5Words
  have main : ∀ (cs : List (List Nat)) (st : Nat × Nat × Nat × Nat),
      st.1 < 4294967296 → st.2.1 < 4294967296 → st.2.2.1 < 4294967296 →
      st.2.2.2 < 4294967296 →
      (cs.foldl md5ProcessChunk st).1 < 4294967296 ∧
      (cs.foldl md5ProcessChunk st).2.1 < 4294967296 ∧
      (cs.foldl md5ProcessChunk st).2.2.1 < 4294967296 ∧
      (cs.foldl md5ProcessChunk st).2.2.2 < 4294967296 := by
    intro cs
    induction cs with
    | nil => intro st h1 h2 h3 h4; exact ⟨h1, h2, h3, h4⟩
    | cons c rest ih =>
        intro st _ _ _ _
        rcases md5ProcessChunk_bound st c with ⟨b1, b2, b3, b4⟩
        exact ih (md5ProcessChunk st c) b1 b2 b3 b4
  exact main _ md5Init (by decide) (by decide) (by decide) (by decide)

/-- The md5 state words packed into a finite type. -/
def md5WordsFin (s : String) :
    Fin 4294967296 × Fin 4294967296 × Fin 4294967296 × Fin 4294967296 :=
  (⟨(md5Words s).1, (md5Words_bound s).1⟩,
   ⟨(md5Words s).2.1, (md5Words_bound s).2.1⟩,
   ⟨(md5Words s).2.2.1, (md5Words_bound s).2.2.1⟩,
   ⟨(md5Words s).2.2.2, (md5Words_bound s).2.2.2⟩)

/-- There are more strings than 128-bit digests, so md5hex collides on
some pair of distinct strings. -/
theorem md5hex_collision_between : ∃ x y : String, x ≠ y ∧ md5hex x = md5hex y := by
  obtain ⟨x, y, hxy, heq⟩ := Finite.exists_ne_map_eq_of_infinite md5WordsFin
  refine ⟨x, y, hxy, ?_⟩
  have h1 := congrArg (fun p => p.1.val) heq
  have h2 := congrArg (fun p => p.2.1.val) heq
  have h3 := congrArg (fun p => p.2.2.1.val) heq
  have h4 := congrArg (fun p => p.2.2.2.val) heq
  simp only [md5WordsFin] at h1 h2 h3 h4
  have hw : md5Words x = md5Words y :=
    Prod.ext h1 (Prod.ext h2 (Prod.ext h3 h4))
  unfold md5hex md5Bytes
  rw [hw]

/-- A minimal store with one blank applicant record. -/
def c6Store : Store :=
  { applicants := [{ id := "recA", fields := blankApplicant }],
    personalTable := [], experienceTable := [], salaryTable := [],
    personalSearchFailing := [], experienceSearchFailing := [],
    salarySearchFailing := [], applicantUpdateFailing := [], nextId := 0 }

/-- C6 amended: right after _update_applicant_record records the digest
of S with a non-empty summary, _needs_evaluation answers false for S,
and answers true for exactly the strings whose md5 digest differs from
that of S. -/
theorem needs_evaluation_change_detection (s : Store) (aid : String)
    (ev : EvalResult) (S t : String) (hsum : ev.summary ≠ "")
    (hex : (getApplicant s aid).isSome = true) :
    needs_evaluation (update_applicant_record s aid ev S t) aid S = false ∧
    ∀ S2, md5hex S2 ≠ md5hex S →
      needs_evaluation (update_applicant_record s aid ev S t) aid S2 = true := by
  rcases hg : getApplicant s aid with _ | r
  · rw [hg] at hex; cases hex
  constructor
  · unfold needs_evaluation update_applicant_record
    rw [getApplicant_updateApplicant, hg]
    simp only [Option.map_some']
    simp [hsum]
  · intro S2 hne
    unfold needs_evaluation update_applicant_record
    rw [getApplicant_updateApplicant, hg]
    simp only [Option.map_some']
    simp [hsum, bne_iff_ne]
    exact fun hh => hne hh.symm

/-- Counterexample to C6: because the digest is md5, there are distinct
document strings with equal digests, and for such a pair
_needs_evaluation answers false although the string differs from the
recorded one — so the claim quantified over every S2 with S2 different
from S is false. -/
theorem needs_evaluation_collision_counterexample :
    ¬ (∀ (s : Store) (aid : String) (ev : EvalResult) (S t : String),
        ev.summary ≠ "" → (getApplicant s aid).isSome = true →
        ∀ S2, S2 ≠ S →
          needs_evaluation (update_applicant_record s aid ev S t) aid S2 = true) := by
  intro hall
  obtain ⟨x, y, hxy, heq⟩ := md5hex_collision_between
  have hev : ({ summary := "ok", score := 5, issues := [], follow_ups := [] } :
      EvalResult).summary ≠ "" := by decide
  have hsome : (getApplicant c6Store "recA").isSome = true := by decide
  have htrue := hall c6Store "recA"
    { summary := "ok", score := 5, issues := [], follow_ups := [] } y "t"
    hev hsome x hxy
  have hfalse : needs_evaluation (update_applicant_record c6Store "recA"
      { summary := "ok", score := 5, issues := [], follow_ups := [] } y "t")
      "recA" x = false := by
    unfold needs_evaluation update_applicant_record
    rw [getApplicant_updateApplicant]
    rw [show getApplicant c6Store "recA"
        = some { id := "recA", fields := blankApplicant } from by decide]
    simp only [Option.map_some']
    simp [heq]
  rw [htrue] at hfalse
  cases hfalse

set_option maxRecDepth 40000 in
/-- Witness for the amended C6 at concrete strings: after recording the
digest of doc1, doc1 needs no new evaluation and doc2 (whose digest
differs) does. -/
theorem needs_evaluation_change_detection_witness :
    needs_evaluation (update_applicant_record c6Store "recA"
        { summary := "ok", score := 7, issues := [], follow_ups := [] }
        "doc1" "t") "recA" "doc1" = false ∧
    needs_evaluation (update_applicant_record c6Store "recA"
        { summary := "ok", score := 7, issues := [], follow_ups := [] }
        "doc1" "t") "recA" "doc2" = true :=
  ⟨(needs_evaluation_change_detection c6Store "recA"
      { summary := "ok", score := 7, issues := [], follow_ups := [] }
      "doc1" "t" (by decide) (by decide)).1,
   (needs_evaluation_change_detection c6Store "recA"
      { summary := "ok", score := 7, issues := [], follow_ups := [] }
      "doc1" "t" (by decide) (by decide)).2 "doc2" (by decide)⟩

/-- C8: validate_data_integrity returns the per-section boolean map of
the three validators; its experience component is the sorted
company/title comparison of the freshly searched rows; that comparison
is order-independent across permutations of the rows whenever company
names are pairwise distinct; and it reads only company and title — any
change to other fields on either side leaves the verdict unchanged. -/
theorem validate_integrity_experience_properties (s : Store) (aid : String)
    (doc : CanonicalDoc) (records records' : List (Rec ExperienceRow))
    (expected expected' : List ExperienceEntry) :
    (s.experienceSearchFailing.contains aid = false →
      validate_data_integrity s aid doc
        = { personal := validate_personal_data s aid doc.personal
            experience :=
              experienceRowsMatch (searchExperience s aid) doc.experience
            salary := validate_salary_data s aid doc.salary }) ∧
    (List.Perm records records' → (records.map expRecKey).Nodup →
      experienceRowsMatch records expected
        = experienceRowsMatch records' expected) ∧
    (records.map expRecProj = records'.map expRecProj →
      expected.map expEntryProj = expected'.map expEntryProj →
      experienceRowsMatch records expected
        = experienceRowsMatch records' expected') := by
  refine ⟨?_, experienceRowsMatch_perm_eq records records' expected,
    experienceRowsMatch_proj_eq records records' expected expected'⟩
  intro h
  unfold validate_data_integrity validate_experience_data
  rw [h]
  rfl

/-- Two fetched rows with distinct companies, in two orders, and a
variant with the same companies and titles but different other
fields: concrete material for the C8 witness. -/
def w8rowA : Rec ExperienceRow :=
  { id := "e1",
    fields := { company := some "Acme", title := some "Dev",
                startDate := some "2020-01-01", endDate := some "2021-01-01",
                technologies := some ["python"], currentPosition := some false,
                applicant := ["recA"] } }

/-- Second concrete row, different company. -/
def w8rowB : Rec ExperienceRow :=
  { id := "e2",
    fields := { company := some "Beta", title := some "Eng",
                startDate := some "2021-02-01", endDate := some "",
                technologies := some [], currentPosition := some true,
                applicant := ["recA"] } }

/-- The same two rows with every non-compared field changed. -/
def w8rowA2 : Rec ExperienceRow :=
  { id := "e9",
    fields := { company := some "Acme", title := some "Dev",
                startDate := some "1999-01-01", endDate := none,
                technologies := some ["cobol"], currentPosition := some true,
                applicant := ["recB"] } }

/-- Changed copy of the second row. -/
def w8rowB2 : Rec ExperienceRow :=
  { id := "e8",
    fields := { company := some "Beta", title := some "Eng",
                startDate := none, endDate := some "x",
                technologies := none, currentPosition := none,
                applicant := [] } }

/-- Expected document entries for the C8 witness. -/
def w8expected : List ExperienceEntry :=
  [{ company := "Acme", title := "Dev", start := "2020-01-01",
     endDate := "2021-01-01", technologies := ["python"], current := false },
   { company := "Beta", title := "Eng", start := "2021-02-01",
     endDate := "", technologies := [], current := true }]

/-- The same entries with every non-compared field changed. -/
def w8expected2 : List ExperienceEntry :=
  [{ company := "Acme", title := "Dev", start := "", endDate := "zz",
     technologies := [], current := true },
   { company := "Beta", title := "Eng", start := "x", endDate := "y",
     technologies := ["q"], current := false }]

/-- Witness for C8: the section map identity on a concrete store, the
order-independence of the check on a concrete permutation with distinct
companies, and its blindness to the non-compared fields. -/
theorem validate_integrity_experience_properties_witness :
    validate_data_integrity c6Store "recA" sampleDoc
      = { personal := validate_personal_data c6Store "recA" sampleDoc.personal
          experience :=
            experienceRowsMatch (searchExperience c6Store "recA")
              sampleDoc.experience
          salary := validate_salary_data c6Store "recA" sampleDoc.salary } ∧
    experienceRowsMatch [w8rowA, w8rowB] w8expected
      = experienceRowsMatch [w8rowB, w8rowA] w8expected ∧
    experienceRowsMatch [w8rowA, w8rowB] w8expected
      = experienceRowsMatch [w8rowA2, w8rowB2] w8expected2 :=
  ⟨(validate_integrity_experience_properties c6Store "recA" sampleDoc [] []
      [] []).1 (by decide),
   (validate_integrity_experience_properties c6Store "recA" sampleDoc
      [w8rowA, w8rowB] [w8rowB, w8rowA] w8expected []).2.1
      (by decide) (by decide),
   (validate_integrity_experience_properties c6Store "recA" sampleDoc
      [w8rowA, w8rowB] [w8rowA2, w8rowB2] w8expected w8expected2).2.2
      (by decide) (by decide)⟩

/-- Characterisation of a non-raising compression: either a missing
sub-record with no write, or the successful single write. -/
theorem compress_ok_cases (s : Store) (aid now : String) (s' : Store)
    (d : Option CanonicalDoc)
    (hc : compress_applicant_data s aid now = Except.ok (s', d)) :
    (s' = s ∧ d = none) ∨
    (∃ p sal, fetch_personal_data s aid = some p ∧
      fetch_salary_data s aid = some sal ∧
      s.applicantUpdateFailing.contains aid = false ∧
      d = some (buildCompressedDoc p (fetch_experience_data s aid) sal now) ∧
      s' = updateApplicant s aid fun f =>
        { f with
            compressedJSON := some (dumpDoc (buildCompressedDoc p
              (fetch_experience_data s aid) sal now))
            lastCompressed := some now }) := by
  unfold compress_applicant_data at hc
  rcases hp : fetch_personal_data s aid with _ | p <;> rw [hp] at hc
  · rcases hsal : fetch_salary_data s aid with _ | sal <;> rw [hsal] at hc <;>
      · simp only [Except.ok.injEq, Prod.mk.injEq] at hc
        exact Or.inl ⟨hc.1.symm, hc.2.symm⟩
  · rcases hsal : fetch_salary_data s aid with _ | sal <;> rw [hsal] at hc
    · simp only [Except.ok.injEq, Prod.mk.injEq] at hc
      exact Or.inl ⟨hc.1.symm, hc.2.symm⟩
    · by_cases hupd : s.applicantUpdateFailing.contains aid = true
      · simp [hupd] at hc
        rw [if_pos (show aid ∈ s.applicantUpdateFailing by simpa using hupd)]
          at hc
        cases hc
      · simp only [Bool.not_eq_true] at hupd
        simp only [hupd, Bool.false_eq_true, if_false, Except.ok.injEq,
          Prod.mk.injEq] at hc
        exact Or.inr ⟨p, sal, rfl, rfl, hupd, hc.2.symm, hc.1.symm⟩

/-- A raising applicant makes compression raise. -/
theorem compress_raises (s : Store) (aid now : String)
    (h : raisesOn s aid = true) :
    compress_applicant_data s aid now = Except.error AirtableError.transport := by
  unfold raisesOn at h
  simp only [Bool.and_eq_true, Option.isSome_iff_exists] at h
  rcases h with ⟨⟨⟨p, hp⟩, ⟨sal, hsal⟩⟩, hupd⟩
  exact (compress_failure_modes s aid now).2 p sal hp hsal hupd

/-- A non-raising applicant makes compression return ok. -/
theorem compress_no_raise (s : Store) (aid now : String)
    (h : raisesOn s aid = false) :
    ∃ s' d, compress_applicant_data s aid now = Except.ok (s', d) := by
  rcases hp : fetch_personal_data s aid with _ | p
  · exact ⟨s, none, (compress_failure_modes s aid now).1 (Or.inl hp)⟩
  · rcases hsal : fetch_salary_data s aid with _ | sal
    · exact ⟨s, none, (compress_failure_modes s aid now).1 (Or.inr hsal)⟩
    · have hupd : s.applicantUpdateFailing.contains aid = false := by
        unfold raisesOn at h
        rw [hp, hsal] at h
        simpa using h
      exact ⟨_, _, (compress_missing_prerequisite s aid now).2 p sal hp hsal hupd⟩

/-- Agreement of two stores on everything the fetch helpers read. -/
def FetchAgree (t t' : Store) : Prop :=
  t'.personalTable = t.personalTable ∧
  t'.experienceTable = t.experienceTable ∧
  t'.salaryTable = t.salaryTable ∧
  t'.personalSearchFailing = t.personalSearchFailing ∧
  t'.experienceSearchFailing = t.experienceSearchFailing ∧
  t'.salarySearchFailing = t.salarySearchFailing ∧
  t'.applicantUpdateFailing = t.applicantUpdateFailing

theorem fetchAgree_refl (t : Store) : FetchAgree t t :=
  ⟨rfl, rfl, rfl, rfl, rfl, rfl, rfl⟩

theorem fetchAgree_trans {a b c : Store} (h1 : FetchAgree a b)
    (h2 : FetchAgree b c) : FetchAgree a c := by
  unfold FetchAgree at *
  exact ⟨h2.1.trans h1.1, h2.2.1.trans h1.2.1, h2.2.2.1.trans h1.2.2.1,
    h2.2.2.2.1.trans h1.2.2.2.1, h2.2.2.2.2.1.trans h1.2.2.2.2.1,
    h2.2.2.2.2.2.1.trans h1.2.2.2.2.2.1, h2.2.2.2.2.2.2.trans h1.2.2.2.2.2.2⟩

/-- Stores that fetch-agree give the same fetches and the same raising
behaviour, for every applicant. -/
theorem fetchAgree_fetch_eq {t t' : Store} (h : FetchAgree t t') (a : String) :
    fetch_personal_data t' a = fetch_personal_data t a ∧
    fetch_experience_data t' a = fetch_experience_data t a ∧
    fetch_salary_data t' a = fetch_salary_data t a ∧
    raisesOn t' a = raisesOn t a := by
  rcases h with ⟨h1, h2, h3, h4, h5, h6, h7⟩
  have hp : fetch_personal_data t' a = fetch_personal_data t a := by
    unfold fetch_personal_data searchPersonal
    rw [h1, h4]
  have he : fetch_experience_data t' a = fetch_experience_data t a := by
    unfold fetch_experience_data searchExperience
    rw [h2, h5]
  have hs : fetch_salary_data t' a = fetch_salary_data t a := by
    unfold fetch_salary_data searchSalary
    rw [h3, h6]
  refine ⟨hp, he, hs, ?_⟩
  unfold raisesOn
  rw [hp, hs, h7]

/-- updateApplicant fetch-agrees with its input. -/
theorem updateApplicant_fetchAgree (s : Store) (aid : String)
    (f : ApplicantFields → ApplicantFields) :
    FetchAgree s (updateApplicant s aid f) :=
  ⟨rfl, rfl, rfl, rfl, rfl, rfl, rfl⟩

/-- A non-raising compression fetch-agrees with its input store. -/
theorem compress_ok_fetchAgree (s : Store) (aid now : String) (s' : Store)
    (d : Option CanonicalDoc)
    (hc : compress_applicant_data s aid now = Except.ok (s', d)) :
    FetchAgree s s' := by
  rcases compress_ok_cases s aid now s' d hc with ⟨he, _⟩ | ⟨p, sal, _, _, _, _, he⟩
  · rw [he]; exact fetchAgree_refl s
  · rw [he]; exact updateApplicant_fetchAgree s aid _

/-- find? for a different id is blind to the conditional rewrite. -/
theorem find?_update_list_ne (aid x : String) (hx : x ≠ aid)
    (f : ApplicantFields → ApplicantFields) :
    ∀ l : List (Rec ApplicantFields),
      ((l.map fun r =>
          if r.id == aid then { r with fields := f r.fields } else r).find?
            fun r => r.id == x)
        = l.find? fun r => r.id == x := by
  intro l
  induction l with
  | nil => rfl
  | cons r rest ih =>
      by_cases hr : (r.id == aid) = true
      · have hid : (r.id == x) = false := by
          have : r.id = aid := by simpa using hr
          simp [this, (Ne.symm hx)]
        simp only [List.map_cons, if_pos hr]
        rw [@List.find?_cons_of_neg (Rec ApplicantFields) (fun q => q.id == x)
            { r with fields := f r.fields } _ (by simpa using hid),
          @List.find?_cons_of_neg (Rec ApplicantFields) (fun q => q.id == x)
            r _ (by simpa using hid)]
        exact ih
      · simp only [List.map_cons, if_neg hr]
        by_cases hid : (r.id == x) = true
        · rw [@List.find?_cons_of_pos (Rec ApplicantFields) (fun q => q.id == x)
              r _ hid,
            @List.find?_cons_of_pos (Rec ApplicantFields) (fun q => q.id == x)
              r _ hid]
        · rw [@List.find?_cons_of_neg (Rec ApplicantFields) (fun q => q.id == x)
              r _ hid,
            @List.find?_cons_of_neg (Rec ApplicantFields) (fun q => q.id == x)
              r _ hid]
          exact ih

/-- Updating one applicant leaves every other applicant record as it
was. -/
theorem getApplicant_updateApplicant_ne (s : Store) (aid x : String)
    (hx : x ≠ aid) (f : ApplicantFields → ApplicantFields) :
    getApplicant (updateApplicant s aid f) x = getApplicant s x := by
  unfold getApplicant updateApplicant
  exact find?_update_list_ne aid x hx f s.applicants

/-- A non-raising compression leaves every other applicant record as it
was. -/
theorem compress_ok_getApplicant_ne (s : Store) (aid now : String) (s' : Store)
    (d : Option CanonicalDoc) (x : String) (hx : x ≠ aid)
    (hc : compress_applicant_data s aid now = Except.ok (s', d)) :
    getApplicant s' x = getApplicant s x := by
  rcases compress_ok_cases s aid now s' d hc with ⟨he, _⟩ | ⟨p, sal, _, _, _, _, he⟩
  · rw [he]
  · rw [he]
    exact getApplicant_updateApplicant_ne s aid x hx _

/-- An id listed among the applicants resolves with get. -/
theorem getApplicant_isSome_of_mem (s : Store) (aid : String)
    (h : aid ∈ s.applicants.map Rec.id) : (getApplicant s aid).isSome = true := by
  unfold getApplicant
  rw [List.find?_isSome]
  rcases List.mem_map.mp h with ⟨r, hr, hid⟩
  exact ⟨r, hr, by simp [hid]⟩

/-- A non-raising compression keeps an existing applicant record
resolvable. -/
theorem compress_ok_isSome (s : Store) (aid now : String) (s' : Store)
    (d : Option CanonicalDoc) (x : String)
    (hc : compress_applicant_data s aid now = Except.ok (s', d))
    (hx : (getApplicant s x).isSome = true) :
    (getApplicant s' x).isSome = true := by
  by_cases hxa : x = aid
  · subst hxa
    rcases compress_ok_cases s x now s' d hc with ⟨he, _⟩ | ⟨p, sal, _, _, _, _, he⟩
    · rw [he]; exact hx
    · rw [he, getApplicant_updateApplicant]
      rcases hg : getApplicant s x with _ | r
      · rw [hg] at hx; cases hx
      · rfl
  · rw [compress_ok_getApplicant_ne s aid now s' d x hxa hc]
    exact hx

/-- Behaviour of the compress_all_pending loop over any id list: the
collected failures are exactly the raising ids in order, the loop never
touches what the fetches read, applicants outside the list keep their
records, and every non-raising id with complete data has its document
written by the time the loop ends. -/
theorem compressBatchStep_foldl (now : String) :
    ∀ (ids : List String) (t : Store) (acc : List String),
      ((ids.foldl (compressBatchStep now) (t, acc)).2
        = acc ++ ids.filter fun aid => raisesOn t aid) ∧
      FetchAgree t (ids.foldl (compressBatchStep now) (t, acc)).1 ∧
      (∀ x, x ∉ ids →
        getApplicant (ids.foldl (compressBatchStep now) (t, acc)).1 x
          = getApplicant t x) ∧
      (ids.Nodup → ∀ aid ∈ ids, raisesOn t aid = false →
        (getApplicant t aid).isSome = true →
        ∀ p sal, fetch_personal_data t aid = some p →
          fetch_salary_data t aid = some sal →
          applicantJSON (ids.foldl (compressBatchStep now) (t, acc)).1 aid
            = some (dumpDoc (buildCompressedDoc p
                (fetch_experience_data t aid) sal now))) := by
  intro ids
  induction ids with
  | nil =>
      intro t acc
      exact ⟨by simp, fetchAgree_refl t, fun x _ => rfl, by intro _ a ha; cases ha⟩
  | cons i rest ih =>
      intro t acc
      rcases hri : raisesOn t i with _ | _
      · -- the head does not raise
        rcases compress_no_raise t i now hri with ⟨s1, d, hok⟩
        have hstep : compressBatchStep now (t, acc) i = (s1, acc) := by
          unfold compressBatchStep
          rw [hok]
        have hag : FetchAgree t s1 := compress_ok_fetchAgree t i now s1 d hok
        rcases ih s1 acc with ⟨ih1, ih2, ih3, ih4⟩
        have hfoldeq : (rest.foldl (compressBatchStep now) (s1, acc))
            = ((i :: rest).foldl (compressBatchStep now) (t, acc)) := by
          rw [List.foldl_cons, hstep]
        refine ⟨?_, ?_, ?_, ?_⟩
        · rw [← hfoldeq, ih1, List.filter_cons_of_neg (by simp [hri])]
          congr 1
          exact List.filter_congr fun a _ => (fetchAgree_fetch_eq hag a).2.2.2
        · rw [← hfoldeq]
          exact fetchAgree_trans hag ih2
        · intro x hx
          rw [← hfoldeq, ih3 x (fun hm => hx (List.mem_cons_of_mem i hm)),
            compress_ok_getApplicant_ne t i now s1 d x
              (fun he => hx (he ▸ List.mem_cons_self i rest)) hok]
        · intro hnd aid haid hfal hsome p sal hp hsal
          rcases List.nodup_cons.mp hnd with ⟨hni, hndr⟩
          rcases List.mem_cons.mp haid with haid | haid
          · subst haid
            have hcont : t.applicantUpdateFailing.contains aid = false := by
              unfold raisesOn at hri
              rw [hp, hsal] at hri
              simpa using hri
            have hc2 := (compress_missing_prerequisite t aid now).2 p sal hp
              hsal hcont
            rw [hc2] at hok
            simp only [Except.ok.injEq, Prod.mk.injEq] at hok
            rw [← hfoldeq]
            unfold applicantJSON
            rw [ih3 aid hni, ← hok.1, getApplicant_updateApplicant]
            rcases hg : getApplicant t aid with _ | r
            · rw [hg] at hsome; cases hsome
            · rfl
          · have hne : aid ≠ i := fun he => hni (he ▸ haid)
            have hfetch := fetchAgree_fetch_eq hag aid
            rw [← hfoldeq, ← (fetchAgree_fetch_eq hag aid).2.1]
            exact ih4 hndr aid haid
              (by rw [hfetch.2.2.2]; exact hfal)
              (by rw [compress_ok_getApplicant_ne t i now s1 d aid hne hok]
                  exact hsome)
              p sal (by rw [hfetch.1]; exact hp) (by rw [hfetch.2.2.1]; exact hsal)
      · -- the head raises: caught, recorded, loop continues unchanged
        have hstep : compressBatchStep now (t, acc) i = (t, acc ++ [i]) := by
          unfold compressBatchStep
          rw [compress_raises t i now hri]
        rcases ih t (acc ++ [i]) with ⟨ih1, ih2, ih3, ih4⟩
        have hfoldeq : (rest.foldl (compressBatchStep now) (t, acc ++ [i]))
            = ((i :: rest).foldl (compressBatchStep now) (t, acc)) := by
          rw [List.foldl_cons, hstep]
        refine ⟨?_, ?_, ?_, ?_⟩
        · rw [← hfoldeq, ih1, List.filter_cons_of_pos (by simp [hri])]
          simp
        · rw [← hfoldeq]; exact ih2
        · intro x hx
          rw [← hfoldeq]
          exact ih3 x fun hm => hx (List.mem_cons_of_mem i hm)
        · intro hnd aid haid hfal hsome p sal hp hsal
          rcases List.nodup_cons.mp hnd with ⟨hni, hndr⟩
          rcases List.mem_cons.mp haid with haid | haid
          · subst haid
            rw [hri] at hfal
            cases hfal
          · rw [← hfoldeq]
            exact ih4 hndr aid haid hfal hsome p sal hp hsal

/-- C9: the batch driver attempts every pending applicant: a raised
compression is caught at the loop boundary and only recorded (the
failure list is exactly the raising applicants, in order), and every
later non-raising applicant with complete data is still compressed and
its document written. -/
theorem compress_all_pending_isolation (s : Store) (now : String)
    (hnd : ((s.applicants.filter (pendingPredicate s)).map Rec.id).Nodup) :
    ((compress_all_pending s now).2
      = ((s.applicants.filter (pendingPredicate s)).map Rec.id).filter
          fun aid => raisesOn s aid) ∧
    (∀ aid ∈ (s.applicants.filter (pendingPredicate s)).map Rec.id,
      raisesOn s aid = false →
      ∀ p sal, fetch_personal_data s aid = some p →
        fetch_salary_data s aid = some sal →
        applicantJSON (compress_all_pending s now).1 aid
          = some (dumpDoc (buildCompressedDoc p
              (fetch_experience_data s aid) sal now))) := by
  rcases compressBatchStep_foldl now
    ((s.applicants.filter (pendingPredicate s)).map Rec.id) s []
    with ⟨h1, _, _, h4⟩
  constructor
  · unfold compress_all_pending
    rw [h1]
    rfl
  · intro aid haid hfal p sal hp hsal
    have hsome : (getApplicant s aid).isSome = true := by
      apply getApplicant_isSome_of_mem
      rcases List.mem_map.mp haid with ⟨r, hr, hid⟩
      exact List.mem_map.mpr ⟨r, List.mem_of_mem_filter hr, hid⟩
    exact h4 hnd aid haid hfal hsome p sal hp hsal

/-- Personal row of one witness applicant. -/
def w9personal (aid : String) : PersonalRow :=
  { fullName := some "A", email := some "e", location := some "L",
    linkedin := some "", applicant := [aid] }

/-- Salary row of one witness applicant. -/
def w9salary (aid : String) : SalaryRow :=
  { preferredRate := some 10, minimumRate := some 5, currency := some "USD",
    availability := some 40, applicant := [aid] }

/-- Three pending applicants; the update of the second raises. -/
def w9Store : Store :=
  { applicants := [{ id := "rec1", fields := blankApplicant },
                   { id := "rec2", fields := blankApplicant },
                   { id := "rec3", fields := blankApplicant }],
    personalTable := [{ id := "p1", fields := w9personal "rec1" },
                      { id := "p2", fields := w9personal "rec2" },
                      { id := "p3", fields := w9personal "rec3" }],
    experienceTable := [],
    salaryTable := [{ id := "s1", fields := w9salary "rec1" },
                    { id := "s2", fields := w9salary "rec2" },
                    { id := "s3", fields := w9salary "rec3" }],
    personalSearchFailing := [], experienceSearchFailing := [],
    salarySearchFailing := [], applicantUpdateFailing := ["rec2"],
    nextId := 0 }

/-- Witness for C9: with three pending applicants whose second raises,
exactly one failure is reported and the third is still compressed. -/
theorem compress_all_pending_isolation_witness :
    (compress_all_pending w9Store "t").2 = ["rec2"] ∧
    applicantJSON (compress_all_pending w9Store "t").1 "rec3"
      = some (dumpDoc (buildCompressedDoc (w9personal "rec3")
          (fetch_experience_data w9Store "rec3") (w9salary "rec3") "t")) :=
  ⟨((compress_all_pending_isolation w9Store "t" (by decide)).1).trans (by decide),
   (compress_all_pending_isolation w9Store "t" (by decide)).2 "rec3" (by decide)
     (by decide) (w9personal "rec3") (w9salary "rec3") (by decide) (by decide)⟩
